import Mathlib

/-!
Verification of the structural value renderer of `sofia-utilities`
(`src/sofia_utils/printing.py`).

The renderer `str_recursively` walks an arbitrary Python object graph and
produces an indented, human-readable text rendering.  We embed the object
graph shallowly: an object is an address (`Nat`, standing for Python's
`id()`), a heap is an association list from addresses to nodes, and a node
is the structural content of one Python value.  Mutation of the `visited`
set is embedded by explicit state passing: every call returns the final
contents of the set together with the rendered string.  The Python
recursion is made total with a fuel parameter; running out of fuel (or
dereferencing an address absent from the heap, which cannot happen for a
real Python object graph) is reported as a distinguished error value.
-/

/-! ### Configuration constants (printing.py lines 9-17) -/

/-- `DEFAULT_INDENT = 'tabs'` -/
def DEFAULT_INDENT : String := "tabs"

/-- `INDENT_SPACES = 4` -/
def INDENT_SPACES : Nat := 4

/-- `B64_CHECK_LEN = 2000` -/
def B64_CHECK_LEN : Nat := 2000

/-- `MAX_RECURSION_DEPTH = 10` -/
def MAX_RECURSION_DEPTH : Nat := 10

/-! ### Line splitting and joining

Python's `str.split('\n')` and `'\n'.join` on lists of characters. -/

/-- `s.split('\n')`: split a character list at every newline.  The result is
always nonempty; a string with `k` newlines yields `k+1` pieces. -/
def splitOnNL : List Char → List (List Char)
  | [] => [[]]
  | c :: rest =>
    if c = '\n' then [] :: splitOnNL rest
    else
      match splitOnNL rest with
      | [] => [[c]]
      | l :: ls => (c :: l) :: ls

/-- `'\n'.join`: interleave a newline between consecutive pieces. -/
def joinNL : List (List Char) → List Char
  | [] => []
  | [l] => l
  | l :: ls => l ++ '\n' :: joinNL ls

/-- Prefix every line of `cs` with `u` (split on newlines, prefix each piece,
rejoin).  This is the body of `str_ind` once the indent unit is known. -/
def indentLines (u : List Char) (cs : List Char) : List Char :=
  joinNL ((splitOnNL cs).map (fun l => u ++ l))

/-- `'\n'.join` on whole strings, as used for the `result` lists in
`str_recursively`. -/
def joinNlStrings (parts : List String) : String :=
  String.mk (joinNL (parts.map String.data))

/-! ### Errors

The only error the Python code can raise is the `ValueError` of `str_ind`
for an unrecognized indent type (`InvalidConfiguration` in the spec).  The
two remaining constructors are artifacts of the embedding: exhausted fuel
and a dangling heap address; neither is reachable from a closed heap with
sufficient fuel. -/

inductive RenderError where
  | invalidConfiguration
  | outOfFuel
  | danglingAddr
deriving DecidableEq, Repr

/-! ### `str_ind` (printing.py lines 19-37) -/

/-- `str_ind(arg, indent, indent_type)`: indent every line of `arg` by
`indent` levels.  A level is one tab in `'tabs'` mode and `INDENT_SPACES`
spaces in `'spaces'` mode; any other indent type raises (`ValueError` in the
source, `invalidConfiguration` here). -/
def str_ind (arg : String) (indent : Nat) (indent_type : String) :
    Except RenderError String :=
  match (if indent_type = "spaces" then some (List.replicate (INDENT_SPACES * indent) ' ')
         else if indent_type = "tabs" then some (List.replicate indent '\t')
         else none) with
  | none => .error .invalidConfiguration
  | some space => .ok (String.mk (indentLines space arg.data))

/-! ### The base64 content classifier (printing.py lines 77-83)

The source tests `re.match(r'data:image/[a-z]+;base64,[A-Za-z0-9+/=]+$', s)`
and `re.match(r'[A-Za-z0-9+/=]+$', s)`.  `re.match` anchors at the start of
the string only; without `re.MULTILINE`, `$` matches at the end of the
string or just before a newline that ends the string.  We transcribe the
two patterns as explicit searches over the length of the matched pieces. -/

/-- The character class `[A-Za-z0-9+/=]` (`b64_chars` in the source). -/
def isB64Char (c : Char) : Bool :=
  ('A' ≤ c && c ≤ 'Z') || ('a' ≤ c && c ≤ 'z') || ('0' ≤ c && c ≤ '9') ||
  c = '+' || c = '/' || c = '='

/-- The character class `[a-z]`. -/
def isLowerAZ (c : Char) : Bool := 'a' ≤ c && c ≤ 'z'

/-- Python's `$` (no MULTILINE): true iff position `k` in `cs` is the end of
the string, or the position just before a final newline. -/
def dollarAt (cs : List Char) (k : Nat) : Bool :=
  k = cs.length || (k + 1 = cs.length && cs.getLast? = some '\n')

/-- `re.match` of a pattern `C+$` for a character class `C`: some nonempty
prefix of `cs` lies in `C` and ends at a position where `$` matches. -/
def plusDollar (C : Char → Bool) (cs : List Char) : Bool :=
  (List.range (cs.length + 1)).any
    (fun k => decide (0 < k) && (cs.take k).all C && dollarAt cs k)

/-- `re.match` of `data:image/[a-z]+;base64,[A-Za-z0-9+/=]+$`: the literal
prefix `data:image/`, a nonempty run of `j` lowercase letters, the literal
`;base64,`, and a tail matching `[A-Za-z0-9+/=]+$`. -/
def dataUriRegex (cs : List Char) : Bool :=
  (List.range (cs.length + 1)).any
    (fun j => decide (0 < j) &&
      cs.take 11 == "data:image/".data &&
      ((cs.drop 11).take j).all isLowerAZ && decide (j ≤ (cs.drop 11).length) &&
      (cs.drop (11 + j)).take 8 == ";base64,".data &&
      plusDollar isB64Char (cs.drop (19 + j)))

/-! ### The value model

`Node` is the structural content of one Python value; addresses (`Nat`)
stand for object identities (`id()`).  `pyfloat` carries the `str()`
rendering of the float, which is all the renderer uses of it; `pyunknown`
carries the `str(type(data))` text used in the fallback branch. -/

inductive Node where
  | pynone
  | pybytes (bs : List (Fin 256))
  | pystr (s : String)
  | pyint (n : Int)
  | pyfloat (repr : String)
  | pylist (elems : List Nat)
  | pytuple (elems : List Nat)
  | pydict (pairs : List (String × Nat))
  | pytype (name : String)
  | pyobj (cls : String) (attrs : List (String × Nat))
  | pyunknown (tyname : String)
deriving DecidableEq, Repr

/-- `type(data).__name__`, as used in the circular-reference message. -/
def typeName : Node → String
  | .pynone => "NoneType"
  | .pybytes _ => "bytes"
  | .pystr _ => "str"
  | .pyint _ => "int"
  | .pyfloat _ => "float"
  | .pylist _ => "list"
  | .pytuple _ => "tuple"
  | .pydict _ => "dict"
  | .pytype _ => "type"
  | .pyobj cls _ => cls
  | .pyunknown t => t

/-- A heap: association list from object identities to node contents. -/
abbrev Heap : Type := List (Nat × Node)

/-- Dereference an address in a heap. -/
def heapFind (heap : Heap) (a : Nat) : Option Node :=
  match heap with
  | [] => none
  | (b, n) :: rest => if b = a then some n else heapFind rest a

/-- `f'{b:02x}'`: a byte as two lowercase hexadecimal digits. -/
def hexDigit (n : Nat) : Char :=
  if n < 10 then Char.ofNat (48 + n) else Char.ofNat (87 + n)

/-- Hexadecimal rendering of one byte, two lowercase digits. -/
def byteHex (b : Fin 256) : String :=
  String.mk [hexDigit (b.val / 16), hexDigit (b.val % 16)]

/-- Python's `str.startswith(pre)`. -/
def pyStartsWith (s pre : String) : Bool := pre.data.isPrefixOf s.data

/-! ### The renderer (printing.py lines 39-187)

`renderEntries` is the `for`-loop shared by the list/tuple, dict and object
branches: for each entry it appends a marker line and then the recursive
rendering of the entry, threading the `visited` set through. -/

/-- One `for` loop of `str_recursively`: for every entry append the marker
line and the recursive rendering, threading the visited set. -/
def renderEntries {α : Type} (mark : α → Except RenderError String)
    (child : α → Finset Nat → Except RenderError (String × Finset Nat)) :
    List α → Finset Nat → Except RenderError (List String × Finset Nat)
  | [], visited => .ok ([], visited)
  | x :: rest, visited =>
    match mark x with
    | .error e => .error e
    | .ok m =>
      match child x visited with
      | .error e => .error e
      | .ok (s, v1) =>
        match renderEntries mark child rest v1 with
        | .error e => .error e
        | .ok (ss, v2) => .ok (m :: s :: ss, v2)

/-- The per-kind rendering rules of `str_recursively` (the `if`/`elif`
chain of printing.py lines 57-187), for a value not already on the path.
`child` is the recursive call.  At this point the source has just executed
`visited.add(data_id)` (line 55), so the set passed on to children is
`insert addr visited`, and the `visited.remove(data_id)` executed on every
return path is `(insert addr visited).erase addr`. -/
def strRecNode (child : Nat → Nat → Finset Nat → Except RenderError (String × Finset Nat))
    (addr indent : Nat) (it : String) (visited : Finset Nat) :
    Node → Except RenderError (String × Finset Nat)
  -- lines 57-60: None
  | .pynone =>
    (str_ind "None" indent it).map (fun s => (s, (insert addr visited).erase addr))
  -- lines 62-72: bytes
  | .pybytes bs =>
    let display_len := min 4 bs.length
    let shown := bs.take display_len
    let shown_str := String.intercalate " " (shown.map byteHex)
    let shown_str := if 4 < bs.length then shown_str ++ " ..." else shown_str
    (str_ind ("bytes: " ++ shown_str) indent it).map
      (fun s => (s, (insert addr visited).erase addr))
  -- lines 74-86: strings, with the base64 image check
  | .pystr s =>
    if B64_CHECK_LEN ≤ s.length && (dataUriRegex s.data || plusDollar isB64Char s.data) then
      (str_ind "str: [Base64 Image Enconding]" indent it).map
        (fun r => (r, (insert addr visited).erase addr))
    else
      (str_ind ("str: " ++ s) indent it).map
        (fun r => (r, (insert addr visited).erase addr))
  -- lines 88-92: numbers
  | .pyint n =>
    (str_ind ("int: " ++ toString n) indent it).map
      (fun s => (s, (insert addr visited).erase addr))
  | .pyfloat r =>
    (str_ind ("float: " ++ r) indent it).map
      (fun s => (s, (insert addr visited).erase addr))
  -- lines 94-115: lists and tuples
  | .pylist elems =>
    if elems.isEmpty then
      (str_ind "list: []" indent it).map (fun s => (s, (insert addr visited).erase addr))
    else
      match str_ind "list:" indent it with
      | .error e => .error e
      | .ok t =>
        match str_ind "[" indent it with
        | .error e => .error e
        | .ok ob =>
          match renderEntries (fun _ => str_ind "[>] item:" indent it)
                  (fun a v => child a (indent + 1) v) elems (insert addr visited) with
          | .error e => .error e
          | .ok (ss, v) =>
            match str_ind "]" indent it with
            | .error e => .error e
            | .ok cb => .ok (joinNlStrings (t :: ob :: (ss ++ [cb])), v.erase addr)
  | .pytuple elems =>
    if elems.isEmpty then
      (str_ind "tuple: ()" indent it).map (fun s => (s, (insert addr visited).erase addr))
    else
      match str_ind "tuple:" indent it with
      | .error e => .error e
      | .ok t =>
        match str_ind "(" indent it with
        | .error e => .error e
        | .ok ob =>
          match renderEntries (fun _ => str_ind "[>] item:" indent it)
                  (fun a v => child a (indent + 1) v) elems (insert addr visited) with
          | .error e => .error e
          | .ok (ss, v) =>
            match str_ind ")" indent it with
            | .error e => .error e
            | .ok cb => .ok (joinNlStrings (t :: ob :: (ss ++ [cb])), v.erase addr)
  -- lines 117-135: dictionaries
  | .pydict pairs =>
    if pairs.isEmpty then
      (str_ind "dict: \x7b\x7d" indent it).map
        (fun s => (s, (insert addr visited).erase addr))
    else
      match str_ind "dict:" indent it with
      | .error e => .error e
      | .ok t =>
        match str_ind "\x7b" indent it with
        | .error e => .error e
        | .ok ob =>
          match renderEntries (fun kv => str_ind ("[>] " ++ kv.1 ++ ":") indent it)
                  (fun kv v => child kv.2 (indent + 1) v) pairs (insert addr visited) with
          | .error e => .error e
          | .ok (ss, v) =>
            match str_ind "\x7d" indent it with
            | .error e => .error e
            | .ok cb => .ok (joinNlStrings (t :: ob :: (ss ++ [cb])), v.erase addr)
  -- lines 137-140: uninstantiated classes
  | .pytype name =>
    (str_ind ("definition of class \x27" ++ name ++ "\x27") indent it).map
      (fun s => (s, (insert addr visited).erase addr))
  -- lines 142-183: instantiated objects
  | .pyobj cls attrs =>
    match str_ind ("object of class \x27" ++ cls ++ "\x27") indent it with
    | .error e => .error e
    | .ok h =>
      -- lines 150-154: depth cutoff
      if MAX_RECURSION_DEPTH < indent then
        match str_ind "<max depth reached>" (indent + 1) it with
        | .error e => .error e
        | .ok m => .ok (joinNlStrings [h, m], (insert addr visited).erase addr)
      else
        -- lines 169-180: filter out internal/private attributes, then render
        match attrs.filter (fun av => !(pyStartsWith av.1 "_" || pyStartsWith av.1 "__")) with
        | [] => .ok (h, (insert addr visited).erase addr)
        | fa :: frest =>
          match str_ind "\x7b" indent it with
          | .error e => .error e
          | .ok ob =>
            match renderEntries (fun av => str_ind ("[>] " ++ av.1 ++ ":") indent it)
                    (fun av v => child av.2 (indent + 1) v) (fa :: frest)
                    (insert addr visited) with
            | .error e => .error e
            | .ok (ss, v) =>
              match str_ind "\x7d" indent it with
              | .error e => .error e
              | .ok cb => .ok (joinNlStrings (h :: ob :: (ss ++ [cb])), v.erase addr)
  -- lines 185-187: fallback
  | .pyunknown t =>
    (str_ind ("object of type " ++ t) indent it).map
      (fun s => (s, (insert addr visited).erase addr))

/-- The body of `str_recursively` for one value, with the recursive call
abstracted as `child`: dereference, cycle check (lines 48-55), then the
per-kind rules. -/
def strRecStep (child : Nat → Nat → Finset Nat → Except RenderError (String × Finset Nat))
    (heap : Heap) (addr indent : Nat) (it : String) (visited : Finset Nat) :
    Except RenderError (String × Finset Nat) :=
  match heapFind heap addr with
  | none => .error .danglingAddr
  | some node =>
    -- lines 48-52: re-entry into a value already on the path
    if addr ∈ visited then
      (str_ind ("<circular reference to " ++ typeName node ++ ">") indent it).map
        (fun s => (s, visited))
    else
      strRecNode child addr indent it visited node

/-- `str_recursively(data, indent, indent_type, visited)`, with a fuel bound
on the recursion depth.  The Python recursion needs no fuel because the
visited set bounds the depth by the number of live objects; the totality
theorems below recover exactly that. -/
def str_recursively : Nat → Heap → Nat → Nat → String → Finset Nat →
    Except RenderError (String × Finset Nat)
  | 0, _, _, _, _, _ => .error .outOfFuel
  | fuel + 1, heap, addr, indent, it, visited =>
    strRecStep (fun a ind v => str_recursively fuel heap a ind it v)
      heap addr indent it visited

/-! ### Lemmas on line splitting and joining -/

theorem splitOnNL_ne_nil (cs : List Char) : splitOnNL cs ≠ [] := by
  induction cs with
  | nil => simp [splitOnNL]
  | cons c rest ih =>
    simp only [splitOnNL]
    split
    · simp
    · cases h : splitOnNL rest with
      | nil => simp
      | cons l ls => simp

theorem joinNL_cons {l : List Char} {ls : List (List Char)} (h : ls ≠ []) :
    joinNL (l :: ls) = l ++ '\n' :: joinNL ls := by
  cases ls with
  | nil => exact absurd rfl h
  | cons m ms => rfl

theorem joinNL_splitOnNL (cs : List Char) : joinNL (splitOnNL cs) = cs := by
  induction cs with
  | nil => rfl
  | cons c rest ih =>
    simp only [splitOnNL]
    split
    · rename_i hc
      rw [joinNL_cons (splitOnNL_ne_nil rest), ih, hc]
      rfl
    · cases h : splitOnNL rest with
      | nil => exact absurd h (splitOnNL_ne_nil rest)
      | cons l ls =>
        cases ls with
        | nil =>
          simp only [joinNL]
          rw [h] at ih
          simp only [joinNL] at ih
          rw [ih]
        | cons m ms =>
          rw [joinNL_cons (by simp)]
          rw [h] at ih
          rw [joinNL_cons (by simp)] at ih
          simp only [List.cons_append, ih]

theorem splitOnNL_append_nl (x y : List Char) :
    splitOnNL (x ++ '\n' :: y) = splitOnNL x ++ splitOnNL y := by
  induction x with
  | nil => simp [splitOnNL]
  | cons c x' ih =>
    simp only [List.cons_append, splitOnNL, List.append_eq]
    split
    · rw [ih]; rfl
    · rw [ih]
      cases h : splitOnNL x' with
      | nil => exact absurd h (splitOnNL_ne_nil x')
      | cons l ls => simp

theorem joinNL_append {as bs : List (List Char)} (ha : as ≠ []) (hb : bs ≠ []) :
    joinNL (as ++ bs) = joinNL as ++ '\n' :: joinNL bs := by
  induction as with
  | nil => exact absurd rfl ha
  | cons a as' ih =>
    cases as' with
    | nil =>
      simp only [List.cons_append, List.nil_append]
      rw [joinNL_cons hb]
      simp [joinNL]
    | cons a2 as'' =>
      rw [List.cons_append, joinNL_cons (by simp), joinNL_cons (by simp),
        ih (by simp)]
      simp

theorem mem_splitOnNL_no_nl (cs : List Char) :
    ∀ l ∈ splitOnNL cs, '\n' ∉ l := by
  induction cs with
  | nil => intro l hl; simp [splitOnNL] at hl; simp [hl]
  | cons c rest ih =>
    intro l hl
    simp only [splitOnNL] at hl
    by_cases hc : c = '\n'
    · rw [if_pos hc] at hl
      rcases List.mem_cons.mp hl with h | h
      · simp [h]
      · exact ih l h
    · rw [if_neg hc] at hl
      cases h : splitOnNL rest with
      | nil => exact absurd h (splitOnNL_ne_nil rest)
      | cons m ms =>
        rw [h] at hl
        rcases List.mem_cons.mp hl with h2 | h2
        · subst h2
          intro hmem
          rcases List.mem_cons.mp hmem with h3 | h3
          · exact hc h3.symm
          · exact ih m (h ▸ List.mem_cons_self m ms) h3
        · exact ih l (h ▸ List.mem_cons.mpr (Or.inr h2))

theorem splitOnNL_no_nl {cs : List Char} (h : '\n' ∉ cs) : splitOnNL cs = [cs] := by
  induction cs with
  | nil => rfl
  | cons c rest ih =>
    have hc : ¬ c = '\n' := fun he => h (by simp [he])
    have hr : '\n' ∉ rest := fun hm => h (List.mem_cons_of_mem _ hm)
    simp only [splitOnNL, if_neg hc, ih hr]

theorem splitOnNL_joinNL {ls : List (List Char)} (h : ls ≠ [])
    (h2 : ∀ l ∈ ls, '\n' ∉ l) : splitOnNL (joinNL ls) = ls := by
  induction ls with
  | nil => exact absurd rfl h
  | cons l ls' ih =>
    cases ls' with
    | nil =>
      simp only [joinNL]
      exact splitOnNL_no_nl (h2 l (by simp))
    | cons m ms =>
      rw [joinNL_cons (by simp), splitOnNL_append_nl,
        splitOnNL_no_nl (h2 l (by simp)), ih (by simp)]
      · rfl
      · intro x hx
        exact h2 x (List.mem_cons.mpr (Or.inr hx))

theorem indentLines_nil (cs : List Char) : indentLines [] cs = cs := by
  unfold indentLines
  simp only [List.nil_append, List.map_id']
  exact joinNL_splitOnNL cs

theorem indentLines_comp {v : List Char} (hv : '\n' ∉ v) (u cs : List Char) :
    indentLines u (indentLines v cs) = indentLines (u ++ v) cs := by
  unfold indentLines
  rw [splitOnNL_joinNL]
  · simp [List.map_map, Function.comp_def, List.append_assoc]
  · simp [splitOnNL_ne_nil cs]
  · intro l hl
    simp only [List.mem_map] at hl
    obtain ⟨m, hm, rfl⟩ := hl
    intro hmem
    rcases List.mem_append.mp hmem with h | h
    · exact hv h
    · exact mem_splitOnNL_no_nl cs m hm h

theorem indentLines_append_nl (u x y : List Char) :
    indentLines u (x ++ '\n' :: y) = indentLines u x ++ '\n' :: indentLines u y := by
  unfold indentLines
  rw [splitOnNL_append_nl, List.map_append, joinNL_append]
  · simp [splitOnNL_ne_nil x]
  · simp [splitOnNL_ne_nil y]

/-! ### Lemmas on `str_ind` -/

/-- The indent unit repeated `d` times, for a valid indent type.  (For an
invalid type the unit is irrelevant: `str_ind` errors out.) -/
def indentUnit (it : String) (d : Nat) : List Char :=
  if it = "spaces" then List.replicate (INDENT_SPACES * d) ' '
  else List.replicate d '\t'

theorem indentUnit_no_nl (it : String) (d : Nat) : '\n' ∉ indentUnit it d := by
  unfold indentUnit
  split <;> intro h <;> rcases List.eq_of_mem_replicate h with h2 <;> simp at h2

theorem str_ind_valid {it : String} (h : it = "tabs" ∨ it = "spaces")
    (arg : String) (i : Nat) :
    str_ind arg i it = .ok (String.mk (indentLines (indentUnit it i) arg.data)) := by
  rcases h with h | h <;> subst h <;> rfl

theorem str_ind_invalid {it : String} (h1 : it ≠ "tabs") (h2 : it ≠ "spaces")
    (arg : String) (i : Nat) :
    str_ind arg i it = .error .invalidConfiguration := by
  unfold str_ind
  rw [if_neg h2, if_neg h1]

/-- Depth 0 leaves the text unchanged. -/
theorem str_ind_zero {it : String} (h : it = "tabs" ∨ it = "spaces")
    (arg : String) : str_ind arg 0 it = .ok arg := by
  rw [str_ind_valid h]
  have hu : indentUnit it 0 = [] := by
    unfold indentUnit; split <;> simp
  rw [hu, indentLines_nil]

/-- `str_ind` on a single-line argument prepends the indent unit. -/
theorem str_ind_single {it : String} (h : it = "tabs" ∨ it = "spaces")
    {arg : String} (hnl : '\n' ∉ arg.data) (i : Nat) :
    str_ind arg i it = .ok (String.mk (indentUnit it i ++ arg.data)) := by
  rw [str_ind_valid h]
  unfold indentLines
  rw [splitOnNL_no_nl hnl]
  rfl

/-- Shifting the indent depth by `d` prefixes `d` more indent units on every
line (and is the identity on the error case). -/
theorem str_ind_shift (it : String) (arg : String) (d k : Nat) :
    str_ind arg (d + k) it =
      (str_ind arg k it).map (fun s => String.mk (indentLines (indentUnit it d) s.data)) := by
  have hadd : indentUnit it (d + k) = indentUnit it d ++ indentUnit it k := by
    unfold indentUnit
    split
    · rw [Nat.mul_add, List.replicate_add]
    · rw [List.replicate_add]
  by_cases hs : it = "spaces"
  · rw [str_ind_valid (Or.inr hs), str_ind_valid (Or.inr hs)]
    simp only [Except.map]
    rw [hadd, ← indentLines_comp (indentUnit_no_nl it k)]
  · by_cases ht : it = "tabs"
    · rw [str_ind_valid (Or.inl ht), str_ind_valid (Or.inl ht)]
      simp only [Except.map]
      rw [hadd, ← indentLines_comp (indentUnit_no_nl it k)]
    · rw [str_ind_invalid ht hs, str_ind_invalid ht hs]
      rfl

/-! ### Lemmas on the heap -/

/-- The set of identities present in a heap. -/
def heapKeys (heap : Heap) : Finset Nat := (heap.map Prod.fst).toFinset

/-- The identities a node refers to directly. -/
def nodeChildren : Node → List Nat
  | .pylist elems => elems
  | .pytuple elems => elems
  | .pydict pairs => pairs.map Prod.snd
  | .pyobj _ attrs => attrs.map Prod.snd
  | _ => []

/-- A well-formed object graph: every reference goes to a live identity. -/
def closedHeap (heap : Heap) : Prop :=
  ∀ p ∈ heap, ∀ a ∈ nodeChildren p.2, a ∈ heapKeys heap

theorem heapFind_mem {heap : Heap} {a : Nat} {n : Node}
    (h : heapFind heap a = some n) : (a, n) ∈ heap := by
  induction heap with
  | nil => simp [heapFind] at h
  | cons p rest ih =>
    obtain ⟨b, m⟩ := p
    simp only [heapFind] at h
    split at h
    · rename_i hb
      cases h
      subst hb
      exact List.mem_cons_self _ _
    · exact List.mem_cons_of_mem _ (ih h)

theorem mem_heapKeys {heap : Heap} {a : Nat} :
    a ∈ heapKeys heap ↔ ∃ n, heapFind heap a = some n := by
  induction heap with
  | nil => simp [heapKeys, heapFind]
  | cons p rest ih =>
    obtain ⟨b, m⟩ := p
    simp only [heapKeys, List.map_cons, List.toFinset_cons, Finset.mem_insert] at *
    constructor
    · rintro (h | h)
      · exact ⟨m, by simp [heapFind, h.symm]⟩
      · obtain ⟨n, hn⟩ := ih.mp h
        by_cases hb : b = a
        · exact ⟨m, by simp [heapFind, hb]⟩
        · exact ⟨n, by simp [heapFind, hb, hn]⟩
    · rintro ⟨n, hn⟩
      simp only [heapFind] at hn
      split at hn
      · rename_i hb; exact Or.inl hb.symm
      · exact Or.inr (ih.mpr ⟨n, hn⟩)

/-! ### The path invariant: every successful call restores the visited set -/

theorem except_map_ok {ε α β : Type} {f : α → β} {e : Except ε α} {b : β}
    (h : e.map f = .ok b) : ∃ a, e = .ok a ∧ b = f a := by
  cases e with
  | error e => simp [Except.map] at h
  | ok a =>
    simp only [Except.map, Except.ok.injEq] at h
    exact ⟨a, rfl, h.symm⟩

theorem renderEntries_visited {α : Type} (mark : α → Except RenderError String)
    (child : α → Finset Nat → Except RenderError (String × Finset Nat)) :
    ∀ (l : List α) (v : Finset Nat) (out : List String × Finset Nat),
      (∀ x ∈ l, ∀ w o, child x w = .ok o → o.2 = w) →
      renderEntries mark child l v = .ok out → out.2 = v := by
  intro l
  induction l with
  | nil =>
    intro v out _ h
    simp only [renderEntries, Except.ok.injEq] at h
    rw [← h]
  | cons x rest ih =>
    intro v out hchild h
    rw [renderEntries] at h
    split at h
    · exact absurd h (by simp)
    · split at h
      · exact absurd h (by simp)
      · split at h
        · exact absurd h (by simp)
        · rename_i m hm sv s v1 hc ssv ss v2 hr
          cases h
          have h1 : v1 = v := by
            have := hchild x (List.mem_cons_self _ _) v (s, v1) hc
            exact this
          have h2 : v2 = v1 := by
            have := ih v1 (ss, v2) (fun y hy => hchild y (List.mem_cons_of_mem _ hy)) hr
            exact this
          simp [h1, h2]

theorem strRecNode_visited
    (child : Nat → Nat → Finset Nat → Except RenderError (String × Finset Nat))
    (hchild : ∀ a j w o, child a j w = .ok o → o.2 = w)
    (addr indent : Nat) (it : String) (vis : Finset Nat) (node : Node)
    (hmem : addr ∉ vis) (out : String × Finset Nat)
    (h : strRecNode child addr indent it vis node = .ok out) : out.2 = vis := by
  have herase : (insert addr vis).erase addr = vis := Finset.erase_insert hmem
  cases node with
  | pynone =>
    simp only [strRecNode] at h
    obtain ⟨s, _, hb⟩ := except_map_ok h
    rw [hb]; exact herase
  | pybytes bs =>
    simp only [strRecNode] at h
    obtain ⟨s, _, hb⟩ := except_map_ok h
    rw [hb]; exact herase
  | pystr s =>
    simp only [strRecNode] at h
    split at h <;>
      · obtain ⟨r, _, hb⟩ := except_map_ok h
        rw [hb]; exact herase
  | pyint n =>
    simp only [strRecNode] at h
    obtain ⟨s, _, hb⟩ := except_map_ok h
    rw [hb]; exact herase
  | pyfloat r =>
    simp only [strRecNode] at h
    obtain ⟨s, _, hb⟩ := except_map_ok h
    rw [hb]; exact herase
  | pylist elems =>
    simp only [strRecNode] at h
    split at h
    · obtain ⟨s, _, hb⟩ := except_map_ok h
      rw [hb]; exact herase
    · split at h
      · exact absurd h (by simp)
      · split at h
        · exact absurd h (by simp)
        · split at h
          · exact absurd h (by simp)
          · split at h
            · exact absurd h (by simp)
            · rename_i x3 ss v hre x4 cb hcb
              cases h
              have hv : v = insert addr vis :=
                renderEntries_visited _ _ elems (insert addr vis) (ss, v)
                  (fun x _ w o hw => hchild x (indent + 1) w o hw) hre
              simp only [hv, herase]
  | pytuple elems =>
    simp only [strRecNode] at h
    split at h
    · obtain ⟨s, _, hb⟩ := except_map_ok h
      rw [hb]; exact herase
    · split at h
      · exact absurd h (by simp)
      · split at h
        · exact absurd h (by simp)
        · split at h
          · exact absurd h (by simp)
          · split at h
            · exact absurd h (by simp)
            · rename_i x3 ss v hre x4 cb hcb
              cases h
              have hv : v = insert addr vis :=
                renderEntries_visited _ _ elems (insert addr vis) (ss, v)
                  (fun x _ w o hw => hchild x (indent + 1) w o hw) hre
              simp only [hv, herase]
  | pydict pairs =>
    simp only [strRecNode] at h
    split at h
    · obtain ⟨s, _, hb⟩ := except_map_ok h
      rw [hb]; exact herase
    · split at h
      · exact absurd h (by simp)
      · split at h
        · exact absurd h (by simp)
        · split at h
          · exact absurd h (by simp)
          · split at h
            · exact absurd h (by simp)
            · rename_i x3 ss v hre x4 cb hcb
              cases h
              have hv : v = insert addr vis :=
                renderEntries_visited _ _ pairs (insert addr vis) (ss, v)
                  (fun x _ w o hw => hchild x.2 (indent + 1) w o hw) hre
              simp only [hv, herase]
  | pytype name =>
    simp only [strRecNode] at h
    obtain ⟨s, _, hb⟩ := except_map_ok h
    rw [hb]; exact herase
  | pyobj cls attrs =>
    simp only [strRecNode] at h
    split at h
    · exact absurd h (by simp)
    · split at h
      · -- depth cutoff branch
        split at h
        · exact absurd h (by simp)
        · cases h
          exact herase
      · split at h
        · -- no public attributes
          cases h
          exact herase
        · split at h
          · exact absurd h (by simp)
          · split at h
            · exact absurd h (by simp)
            · split at h
              · exact absurd h (by simp)
              · rename_i x3 ss v hre x4 cb hcb
                cases h
                have hv : v = insert addr vis :=
                  renderEntries_visited _ _ _ (insert addr vis) (ss, v)
                    (fun x _ w o hw => hchild x.2 (indent + 1) w o hw) hre
                simp only [hv, herase]
  | pyunknown t =>
    simp only [strRecNode] at h
    obtain ⟨s, _, hb⟩ := except_map_ok h
    rw [hb]; exact herase

theorem strRecStep_visited
    (child : Nat → Nat → Finset Nat → Except RenderError (String × Finset Nat))
    (hchild : ∀ a j w o, child a j w = .ok o → o.2 = w)
    (heap : Heap) (addr indent : Nat) (it : String) (vis : Finset Nat)
    (out : String × Finset Nat)
    (h : strRecStep child heap addr indent it vis = .ok out) : out.2 = vis := by
  unfold strRecStep at h
  split at h
  · exact absurd h (by simp)
  · rename_i node hfind
    split at h
    · obtain ⟨s, _, hb⟩ := except_map_ok h
      rw [hb]
    · rename_i hmem
      exact strRecNode_visited child hchild addr indent it vis node hmem out h

/-- Every successful render call leaves the visited set exactly as it found
it: the path of ancestors is restored on every exit route. -/
theorem str_recursively_visited :
    ∀ (fuel : Nat) (heap : Heap) (addr indent : Nat) (it : String)
      (vis : Finset Nat) (out : String × Finset Nat),
      str_recursively fuel heap addr indent it vis = .ok out → out.2 = vis := by
  intro fuel
  induction fuel with
  | zero =>
    intro heap addr indent it vis out h
    simp [str_recursively] at h
  | succ n ih =>
    intro heap addr indent it vis out h
    rw [str_recursively] at h
    exact strRecStep_visited _ (fun a j w o hw => ih heap a j it w o hw)
      heap addr indent it vis out h

/-! ### Totality: with a valid indent type, a closed heap and enough fuel,
rendering always succeeds -/

theorem str_ind_isOk {it : String} (h : it = "tabs" ∨ it = "spaces")
    (arg : String) (i : Nat) : ∃ s, str_ind arg i it = .ok s :=
  ⟨_, str_ind_valid h arg i⟩

theorem renderEntries_total {α : Type} (mark : α → Except RenderError String)
    (child : α → Finset Nat → Except RenderError (String × Finset Nat)) :
    ∀ (l : List α) (v : Finset Nat),
      (∀ x ∈ l, ∃ m, mark x = .ok m) →
      (∀ x ∈ l, ∃ o, child x v = .ok o) →
      (∀ x ∈ l, ∀ w o, child x w = .ok o → o.2 = w) →
      ∃ ss, renderEntries mark child l v = .ok (ss, v) := by
  intro l
  induction l with
  | nil => intro v _ _ _; exact ⟨[], rfl⟩
  | cons x rest ih =>
    intro v hmark htot hpres
    obtain ⟨m, hm⟩ := hmark x (List.mem_cons_self _ _)
    obtain ⟨o, ho⟩ := htot x (List.mem_cons_self _ _)
    obtain ⟨s, v1⟩ := o
    have hv1 : v1 = v := hpres x (List.mem_cons_self _ _) v (s, v1) ho
    rw [hv1] at ho
    obtain ⟨ss, hrest⟩ := ih v (fun y hy => hmark y (List.mem_cons_of_mem _ hy))
      (fun y hy => htot y (List.mem_cons_of_mem _ hy))
      (fun y hy => hpres y (List.mem_cons_of_mem _ hy))
    exact ⟨m :: s :: ss, by simp only [renderEntries, hm, ho, hrest]⟩

theorem strRecNode_total
    (child : Nat → Nat → Finset Nat → Except RenderError (String × Finset Nat))
    (addr indent : Nat) {it : String} (hit : it = "tabs" ∨ it = "spaces")
    (vis : Finset Nat) (node : Node)
    (htot : ∀ a ∈ nodeChildren node, ∀ j, ∃ o, child a j (insert addr vis) = .ok o)
    (hpres : ∀ a j w o, child a j w = .ok o → o.2 = w) :
    ∃ out, strRecNode child addr indent it vis node = .ok out := by
  cases node with
  | pynone =>
    obtain ⟨s, hs⟩ := str_ind_isOk hit "None" indent
    exact ⟨_, by rw [strRecNode, hs]; rfl⟩
  | pybytes bs =>
    obtain ⟨s, hs⟩ := str_ind_isOk hit _ indent
    exact ⟨_, by rw [strRecNode, hs]; rfl⟩
  | pystr s =>
    by_cases hb : (B64_CHECK_LEN ≤ s.length &&
        (dataUriRegex s.data || plusDollar isB64Char s.data)) = true
    · obtain ⟨r, hr⟩ := str_ind_isOk hit "str: [Base64 Image Enconding]" indent
      exact ⟨_, by rw [strRecNode, if_pos hb, hr]; rfl⟩
    · obtain ⟨r, hr⟩ := str_ind_isOk hit ("str: " ++ s) indent
      exact ⟨_, by rw [strRecNode, if_neg hb, hr]; rfl⟩
  | pyint n =>
    obtain ⟨s, hs⟩ := str_ind_isOk hit _ indent
    exact ⟨_, by rw [strRecNode, hs]; rfl⟩
  | pyfloat r =>
    obtain ⟨s, hs⟩ := str_ind_isOk hit _ indent
    exact ⟨_, by rw [strRecNode, hs]; rfl⟩
  | pylist elems =>
    by_cases he : elems.isEmpty
    · obtain ⟨s, hs⟩ := str_ind_isOk hit "list: []" indent
      exact ⟨_, by rw [strRecNode, if_pos he, hs]; rfl⟩
    · obtain ⟨t, ht⟩ := str_ind_isOk hit "list:" indent
      obtain ⟨ob, hob⟩ := str_ind_isOk hit "[" indent
      obtain ⟨cb, hcb⟩ := str_ind_isOk hit "]" indent
      obtain ⟨ss, hss⟩ := renderEntries_total (fun _ => str_ind "[>] item:" indent it)
        (fun a v => child a (indent + 1) v) elems (insert addr vis)
        (fun x _ => str_ind_isOk hit "[>] item:" indent)
        (fun x hx => htot x hx (indent + 1))
        (fun x _ w o hw => hpres x (indent + 1) w o hw)
      exact ⟨_, by rw [strRecNode, if_neg he, ht, hob, hss, hcb]⟩
  | pytuple elems =>
    by_cases he : elems.isEmpty
    · obtain ⟨s, hs⟩ := str_ind_isOk hit "tuple: ()" indent
      exact ⟨_, by rw [strRecNode, if_pos he, hs]; rfl⟩
    · obtain ⟨t, ht⟩ := str_ind_isOk hit "tuple:" indent
      obtain ⟨ob, hob⟩ := str_ind_isOk hit "(" indent
      obtain ⟨cb, hcb⟩ := str_ind_isOk hit ")" indent
      obtain ⟨ss, hss⟩ := renderEntries_total (fun _ => str_ind "[>] item:" indent it)
        (fun a v => child a (indent + 1) v) elems (insert addr vis)
        (fun x _ => str_ind_isOk hit "[>] item:" indent)
        (fun x hx => htot x hx (indent + 1))
        (fun x _ w o hw => hpres x (indent + 1) w o hw)
      exact ⟨_, by rw [strRecNode, if_neg he, ht, hob, hss, hcb]⟩
  | pydict pairs =>
    by_cases he : pairs.isEmpty
    · obtain ⟨s, hs⟩ := str_ind_isOk hit "dict: \x7b\x7d" indent
      exact ⟨_, by rw [strRecNode, if_pos he, hs]; rfl⟩
    · obtain ⟨t, ht⟩ := str_ind_isOk hit "dict:" indent
      obtain ⟨ob, hob⟩ := str_ind_isOk hit "\x7b" indent
      obtain ⟨cb, hcb⟩ := str_ind_isOk hit "\x7d" indent
      obtain ⟨ss, hss⟩ := renderEntries_total (fun kv => str_ind ("[>] " ++ kv.1 ++ ":") indent it)
        (fun kv v => child kv.2 (indent + 1) v) pairs (insert addr vis)
        (fun x _ => str_ind_isOk hit _ indent)
        (fun x hx => htot x.2 (by
          simp only [nodeChildren, List.mem_map]
          exact ⟨x, hx, rfl⟩) (indent + 1))
        (fun x _ w o hw => hpres x.2 (indent + 1) w o hw)
      exact ⟨_, by rw [strRecNode, if_neg he, ht, hob, hss, hcb]⟩
  | pytype name =>
    obtain ⟨s, hs⟩ := str_ind_isOk hit _ indent
    exact ⟨_, by rw [strRecNode, hs]; rfl⟩
  | pyobj cls attrs =>
    obtain ⟨h, hh⟩ := str_ind_isOk hit ("object of class \x27" ++ cls ++ "\x27") indent
    by_cases hd : MAX_RECURSION_DEPTH < indent
    · obtain ⟨m, hm⟩ := str_ind_isOk hit "<max depth reached>" (indent + 1)
      exact ⟨_, by simp only [strRecNode, hh, hm]; rw [if_pos hd]⟩
    · cases hf : attrs.filter (fun av => !(pyStartsWith av.1 "_" || pyStartsWith av.1 "__")) with
      | nil => exact ⟨_, by simp only [strRecNode, hh]; rw [if_neg hd, hf]⟩
      | cons fa frest =>
        obtain ⟨ob, hob⟩ := str_ind_isOk hit "\x7b" indent
        obtain ⟨cb, hcb⟩ := str_ind_isOk hit "\x7d" indent
        obtain ⟨ss, hss⟩ := renderEntries_total
          (fun av => str_ind ("[>] " ++ av.1 ++ ":") indent it)
          (fun av v => child av.2 (indent + 1) v) (fa :: frest) (insert addr vis)
          (fun x _ => str_ind_isOk hit _ indent)
          (fun x hx => htot x.2 (by
            have hx2 : x ∈ attrs := List.mem_of_mem_filter (hf ▸ hx)
            simp only [nodeChildren, List.mem_map]
            exact ⟨x, hx2, rfl⟩) (indent + 1))
          (fun x _ w o hw => hpres x.2 (indent + 1) w o hw)
        exact ⟨_, by simp only [strRecNode, hh, hf, hob, hss, hcb]; rw [if_neg hd]⟩
  | pyunknown t =>
    obtain ⟨s, hs⟩ := str_ind_isOk hit _ indent
    exact ⟨_, by rw [strRecNode, hs]; rfl⟩

/-- Termination with a concrete fuel bound: rendering a live identity of a
closed heap succeeds whenever the fuel exceeds the number of live
identities not yet on the path.  This is the formal counterpart of the
Python function terminating on every object graph, cyclic ones included. -/
theorem str_recursively_total :
    ∀ (fuel : Nat) (heap : Heap), closedHeap heap →
      ∀ {it : String}, (it = "tabs" ∨ it = "spaces") →
      ∀ (addr indent : Nat) (vis : Finset Nat), addr ∈ heapKeys heap →
      (heapKeys heap \ vis).card < fuel →
      ∃ out, str_recursively fuel heap addr indent it vis = .ok out := by
  intro fuel
  induction fuel with
  | zero =>
    intro heap _ it hit addr indent vis _ hcard
    exact absurd hcard (by simp)
  | succ n ih =>
    intro heap hclosed it hit addr indent vis haddr hcard
    obtain ⟨node, hfind⟩ := mem_heapKeys.mp haddr
    rw [str_recursively]
    unfold strRecStep
    simp only [hfind]
    by_cases hmem : addr ∈ vis
    · rw [if_pos hmem]
      obtain ⟨s, hs⟩ := str_ind_isOk hit _ indent
      exact ⟨_, by rw [hs]; rfl⟩
    · rw [if_neg hmem]
      refine strRecNode_total _ addr indent hit vis node ?_
        (fun a j w o hw => str_recursively_visited n heap a j it w o hw)
      intro a ha j
      have hmemheap : (addr, node) ∈ heap := heapFind_mem hfind
      have hakeys : a ∈ heapKeys heap := hclosed (addr, node) hmemheap a ha
      have haddr_diff : addr ∈ heapKeys heap \ vis := Finset.mem_sdiff.mpr ⟨haddr, hmem⟩
      have hcard2 : (heapKeys heap \ insert addr vis).card < n := by
        rw [Finset.sdiff_insert]
        have h1 : 0 < (heapKeys heap \ vis).card := Finset.card_pos.mpr ⟨addr, haddr_diff⟩
        have h2 := Finset.card_erase_of_mem haddr_diff
        omega
      exact ih heap hclosed hit a j (insert addr vis) hakeys hcard2

/-! ### Error taxonomy: an unrecognized indent type always raises -/

theorem except_map_error {ε α β : Type} (f : α → β) (e : ε) :
    (Except.error e : Except ε α).map f = .error e := rfl

theorem strRecNode_invalid
    (child : Nat → Nat → Finset Nat → Except RenderError (String × Finset Nat))
    (addr indent : Nat) {it : String} (h1 : it ≠ "tabs") (h2 : it ≠ "spaces")
    (vis : Finset Nat) (node : Node) :
    strRecNode child addr indent it vis node = .error .invalidConfiguration := by
  cases node <;>
    simp [strRecNode, str_ind_invalid h1 h2, except_map_error]

/-- With an unrecognized indent type, rendering any live value raises the
configuration error: the first `str_ind` call of every branch throws before
any output is produced. -/
theorem str_recursively_invalid (fuel : Nat) (heap : Heap) (addr indent : Nat)
    {it : String} (h1 : it ≠ "tabs") (h2 : it ≠ "spaces") (vis : Finset Nat)
    (node : Node) (hfind : heapFind heap addr = some node) (hfuel : 0 < fuel) :
    str_recursively fuel heap addr indent it vis = .error .invalidConfiguration := by
  cases fuel with
  | zero => exact absurd hfuel (by simp)
  | succ n =>
    rw [str_recursively]
    unfold strRecStep
    simp only [hfind]
    by_cases hmem : addr ∈ vis
    · rw [if_pos hmem, str_ind_invalid h1 h2]
      rfl
    · rw [if_neg hmem]
      exact strRecNode_invalid _ addr indent h1 h2 vis node

/-! ### Characterizing the two regular expressions

`plusDollar C cs` searches over all match lengths `k`; here we show it is
equivalent to the two-case description: the whole string lies in the class,
or everything except one final newline does. -/

theorem plusDollar_iff (C : Char → Bool) (cs : List Char) :
    plusDollar C cs = true ↔
      (cs ≠ [] ∧ ∀ c ∈ cs, C c = true) ∨
      (cs.getLast? = some '\n' ∧ cs.dropLast ≠ [] ∧ ∀ c ∈ cs.dropLast, C c = true) := by
  unfold plusDollar
  rw [List.any_eq_true]
  constructor
  · rintro ⟨k, hk, hcond⟩
    rw [List.mem_range] at hk
    simp only [Bool.and_eq_true, decide_eq_true_eq] at hcond
    obtain ⟨⟨hkpos, hall⟩, hdollar⟩ := hcond
    rw [List.all_eq_true] at hall
    unfold dollarAt at hdollar
    simp only [Bool.or_eq_true, Bool.and_eq_true, decide_eq_true_eq] at hdollar
    rcases hdollar with hkl | ⟨hkl, hlast⟩
    · left
      subst hkl
      rw [List.take_length] at hall
      exact ⟨List.ne_nil_of_length_pos hkpos, hall⟩
    · right
      have hk1 : k = cs.length - 1 := by omega
      have hdl : cs.dropLast = cs.take k := by
        rw [List.dropLast_eq_take, hk1]
      refine ⟨hlast, ?_, ?_⟩
      · have hlen : (cs.take k).length = k := by
          rw [List.length_take]
          omega
        rw [hdl]
        intro hnil
        rw [hnil] at hlen
        simp at hlen
        omega
      · rw [hdl]
        exact hall
  · rintro (⟨hne, hall⟩ | ⟨hlast, hdne, hdall⟩)
    · have hpos : 0 < cs.length := List.length_pos.mpr hne
      refine ⟨cs.length, ?_, ?_⟩
      · rw [List.mem_range]; omega
      · simp only [Bool.and_eq_true, decide_eq_true_eq]
        refine ⟨⟨hpos, ?_⟩, ?_⟩
        · rw [List.all_eq_true, List.take_length]; exact hall
        · unfold dollarAt; simp
    · have hcsne : cs ≠ [] := by
        intro h; rw [h] at hlast; simp at hlast
      have hlen : 0 < cs.length := List.length_pos.mpr hcsne
      have hdlen : cs.dropLast.length = cs.length - 1 := List.length_dropLast cs
      have hdpos : 0 < cs.length - 1 := by
        have := List.length_pos.mpr hdne
        omega
      refine ⟨cs.length - 1, ?_, ?_⟩
      · rw [List.mem_range]; omega
      · simp only [Bool.and_eq_true, decide_eq_true_eq]
        refine ⟨⟨hdpos, ?_⟩, ?_⟩
        · rw [List.all_eq_true, ← List.dropLast_eq_take]; exact hdall
        · unfold dollarAt
          simp only [Bool.or_eq_true, Bool.and_eq_true, decide_eq_true_eq]
          right
          exact ⟨by omega, hlast⟩

theorem dataUriRegex_iff (cs : List Char) :
    dataUriRegex cs = true ↔
      ∃ sub rest, cs = "data:image/".data ++ sub ++ ";base64,".data ++ rest ∧
        sub ≠ [] ∧ (∀ c ∈ sub, isLowerAZ c = true) ∧
        plusDollar isB64Char rest = true := by
  unfold dataUriRegex
  rw [List.any_eq_true]
  constructor
  · rintro ⟨j, hj, hcond⟩
    rw [List.mem_range] at hj
    simp only [Bool.and_eq_true, decide_eq_true_eq, beq_iff_eq] at hcond
    obtain ⟨⟨⟨⟨⟨hjpos, htake11⟩, hlow⟩, hjle⟩, hlit⟩, hpd⟩ := hcond
    have e1 : cs = cs.take 11 ++ cs.drop 11 := (List.take_append_drop 11 cs).symm
    have e2 : cs.drop 11 = (cs.drop 11).take j ++ (cs.drop 11).drop j :=
      (List.take_append_drop j _).symm
    have e3 : (cs.drop 11).drop j = cs.drop (11 + j) := List.drop_drop j 11 cs
    have e4 : cs.drop (11 + j) = (cs.drop (11 + j)).take 8 ++ (cs.drop (11 + j)).drop 8 :=
      (List.take_append_drop 8 _).symm
    have e5 : (cs.drop (11 + j)).drop 8 = cs.drop (19 + j) := by
      rw [List.drop_drop]
      congr 1
      omega
    refine ⟨(cs.drop 11).take j, cs.drop (19 + j), ?_, ?_, ?_, hpd⟩
    · conv_lhs => rw [e1, e2, e3, e4, e5]
      rw [htake11, hlit]
      simp [List.append_assoc]
    · have hlensub : ((cs.drop 11).take j).length = j := by
        rw [List.length_take]
        omega
      intro hnil
      rw [hnil] at hlensub
      simp at hlensub
      omega
    · exact List.all_eq_true.mp hlow
  · rintro ⟨sub, rest, hcs, hsubne, hlow, hpd⟩
    have hpre : ("data:image/".data).length = 11 := rfl
    have hlitlen : (";base64,".data).length = 8 := rfl
    have hcs2 : cs = "data:image/".data ++ (sub ++ (";base64,".data ++ rest)) := by
      rw [hcs]
      simp [List.append_assoc]
    have hdrop11 : cs.drop 11 = sub ++ (";base64,".data ++ rest) := by
      rw [hcs2]
      exact List.drop_left' hpre
    have hdrop11j : cs.drop (11 + sub.length) = ";base64,".data ++ rest := by
      have : cs.drop (11 + sub.length) = (cs.drop 11).drop sub.length := by
        rw [List.drop_drop]
      rw [this, hdrop11]
      exact List.drop_left _ _
    refine ⟨sub.length, ?_, ?_⟩
    · rw [List.mem_range, hcs]
      simp only [List.length_append]
      omega
    · simp only [Bool.and_eq_true, decide_eq_true_eq, beq_iff_eq]
      refine ⟨⟨⟨⟨⟨List.length_pos.mpr hsubne, ?_⟩, ?_⟩, ?_⟩, ?_⟩, ?_⟩
      · rw [hcs2]
        exact List.take_left' hpre
      · rw [hdrop11, List.take_left]
        exact List.all_eq_true.mpr hlow
      · rw [hdrop11]
        simp only [List.length_append]
        omega
      · rw [hdrop11j]
        exact List.take_left' hlitlen
      · have : cs.drop (19 + sub.length) = rest := by
          have h8 : cs.drop (19 + sub.length) = (cs.drop (11 + sub.length)).drop 8 := by
            rw [List.drop_drop]
            congr 1
            omega
          rw [h8, hdrop11j]
          exact List.drop_left' hlitlen
        rw [this]
        exact hpd

/-! ### The spec-level elision condition and its amended form

`SpecDataUri`/`SpecSolelyB64` transcribe the spec's description of the two
patterns ("followed entirely by base64 alphabet characters to end of
string", "composed solely of that base64 alphabet").  The amended condition
adds the case the regular expressions actually also accept: the same
pattern followed by one final newline, because `$` matches before a
trailing newline. -/

/-- The spec's first pattern: a MIME data-URI prefix followed entirely by
base64 alphabet characters to the end of the string. -/
def SpecDataUri (cs : List Char) : Prop :=
  ∃ sub body, cs = "data:image/".data ++ sub ++ ";base64,".data ++ body ∧
    sub ≠ [] ∧ (∀ c ∈ sub, isLowerAZ c = true) ∧
    body ≠ [] ∧ ∀ c ∈ body, isB64Char c = true

/-- The spec's second pattern: the entire string composed solely of the
base64 alphabet. -/
def SpecSolelyB64 (cs : List Char) : Prop :=
  cs ≠ [] ∧ ∀ c ∈ cs, isB64Char c = true

/-- The spec's elision condition (given length at least 2000). -/
def SpecElide (cs : List Char) : Prop := SpecDataUri cs ∨ SpecSolelyB64 cs

/-- The elision condition as the code actually implements it: the spec's
condition, or the spec's condition on everything before one final
newline. -/
def AmendedElide (cs : List Char) : Prop :=
  SpecElide cs ∨ (cs.getLast? = some '\n' ∧ SpecElide cs.dropLast)

theorem solelyB64_amended (cs : List Char) :
    plusDollar isB64Char cs = true ↔
      SpecSolelyB64 cs ∨ (cs.getLast? = some '\n' ∧ SpecSolelyB64 cs.dropLast) := by
  rw [plusDollar_iff]
  unfold SpecSolelyB64
  tauto

theorem dataUri_amended (cs : List Char) :
    dataUriRegex cs = true ↔
      SpecDataUri cs ∨ (cs.getLast? = some '\n' ∧ SpecDataUri cs.dropLast) := by
  rw [dataUriRegex_iff]
  constructor
  · rintro ⟨sub, rest, hcs, hsubne, hlow, hpd⟩
    rcases (plusDollar_iff _ _).mp hpd with ⟨hne, hall⟩ | ⟨hlast, hdne, hdall⟩
    · exact Or.inl ⟨sub, rest, hcs, hsubne, hlow, hne, hall⟩
    · right
      have hrestne : rest ≠ [] := by
        intro h
        rw [h] at hlast
        simp at hlast
      constructor
      · rw [hcs, List.append_assoc, List.append_assoc,
          List.getLast?_append_of_ne_nil _ (by simp [hrestne]),
          List.getLast?_append_of_ne_nil _ (by simp [hrestne]),
          List.getLast?_append_of_ne_nil _ hrestne]
        exact hlast
      · refine ⟨sub, rest.dropLast, ?_, hsubne, hlow, hdne, hdall⟩
        rw [hcs, List.append_assoc, List.append_assoc,
          List.dropLast_append_of_ne_nil _ (by simp [hrestne]),
          List.dropLast_append_of_ne_nil _ (by simp [hrestne]),
          List.dropLast_append_of_ne_nil _ hrestne]
        simp [List.append_assoc]
  · rintro (⟨sub, body, hcs, hsubne, hlow, hbne, hball⟩ |
      ⟨hlast, sub, body, hdcs, hsubne, hlow, hbne, hball⟩)
    · exact ⟨sub, body, hcs, hsubne, hlow,
        (plusDollar_iff _ _).mpr (Or.inl ⟨hbne, hball⟩)⟩
    · refine ⟨sub, body ++ ['\n'], ?_, hsubne, hlow, ?_⟩
      · have hcs2 : cs.dropLast ++ ['\n'] = cs :=
          List.dropLast_append_getLast? '\n' hlast
        rw [← hcs2, hdcs]
        simp [List.append_assoc]
      · refine (plusDollar_iff _ _).mpr (Or.inr ⟨?_, ?_, ?_⟩)
        · exact List.getLast?_concat body
        · rw [List.dropLast_concat]
          exact hbne
        · rw [List.dropLast_concat]
          exact hball

/-- The code's combined test elides exactly the amended condition. -/
theorem regex_iff_amended (cs : List Char) :
    (dataUriRegex cs || plusDollar isB64Char cs) = true ↔ AmendedElide cs := by
  rw [Bool.or_eq_true, dataUri_amended, solelyB64_amended]
  unfold AmendedElide SpecElide
  tauto

/-! ### Indent-shift: rendering at depth `d + k` indents the depth-`k`
rendering by `d` more units, provided no `Object` value is involved (the
depth cutoff of the object branch reads the absolute depth). -/

/-- Prefix every line of a string with `u`. -/
def indentS (u : List Char) (s : String) : String :=
  String.mk (indentLines u s.data)

theorem indentLines_joinNL (u : List Char) :
    ∀ (ds : List (List Char)), ds ≠ [] →
      indentLines u (joinNL ds) = joinNL (ds.map (indentLines u)) := by
  intro ds
  induction ds with
  | nil => intro h; exact absurd rfl h
  | cons d ds' ih =>
    intro _
    cases ds' with
    | nil => rfl
    | cons e ds2 =>
      rw [joinNL_cons (by simp), indentLines_append_nl, ih (by simp)]
      conv_rhs => rw [List.map_cons, joinNL_cons (by simp)]

theorem joinNlStrings_map_indentS (u : List Char) (parts : List String)
    (hne : parts ≠ []) :
    indentS u (joinNlStrings parts) = joinNlStrings (parts.map (indentS u)) := by
  have h := indentLines_joinNL u (parts.map String.data) (by simpa using hne)
  show String.mk (indentLines u (joinNL (parts.map String.data))) =
    String.mk (joinNL ((parts.map (indentS u)).map String.data))
  rw [h]
  congr 1
  rw [List.map_map, List.map_map]
  rfl

/-- A node of the object kind (subject to the depth cutoff). -/
def Node.isObj : Node → Bool
  | .pyobj _ _ => true
  | _ => false

/-- A heap none of whose values is a composite `Object`. -/
def objFree (heap : Heap) : Prop := ∀ p ∈ heap, p.2.isObj = false

theorem renderEntries_shift {α : Type} (u : List Char)
    (mark mark' : α → Except RenderError String)
    (child child' : α → Finset Nat → Except RenderError (String × Finset Nat))
    (hmark : ∀ x, mark' x = (mark x).map (indentS u))
    (hchild : ∀ x v, child' x v = (child x v).map (fun p => (indentS u p.1, p.2))) :
    ∀ (l : List α) (v : Finset Nat),
      renderEntries mark' child' l v =
        (renderEntries mark child l v).map (fun p => (p.1.map (indentS u), p.2)) := by
  intro l
  induction l with
  | nil => intro v; rfl
  | cons x rest ih =>
    intro v
    rw [renderEntries, renderEntries, hmark, hchild]
    cases mark x with
    | error e => rfl
    | ok m =>
      simp only [Except.map]
      cases child x v with
      | error e => rfl
      | ok p =>
        obtain ⟨s, v1⟩ := p
        simp only [Except.map, ih v1]
        cases renderEntries mark child rest v1 with
        | error e => rfl
        | ok q => rfl

set_option maxHeartbeats 1000000 in
theorem strRecNode_shift
    (child : Nat → Nat → Finset Nat → Except RenderError (String × Finset Nat))
    (it : String) (d : Nat)
    (hchild : ∀ a j v, child a (d + j) v =
      (child a j v).map (fun p => (indentS (indentUnit it d) p.1, p.2)))
    (addr k : Nat) (vis : Finset Nat) (node : Node) (hnode : node.isObj = false) :
    strRecNode child addr (d + k) it vis node =
      (strRecNode child addr k it vis node).map
        (fun p => (indentS (indentUnit it d) p.1, p.2)) := by
  cases node with
  | pynone =>
    simp only [strRecNode]
    rw [str_ind_shift]
    cases hs : str_ind "None" k it <;> rfl
  | pybytes bs =>
    simp only [strRecNode]
    rw [str_ind_shift]
    cases hs : str_ind _ k it <;> rfl
  | pystr s =>
    simp only [strRecNode]
    by_cases hc : (B64_CHECK_LEN ≤ s.length &&
        (dataUriRegex s.data || plusDollar isB64Char s.data)) = true
    · rw [if_pos hc, if_pos hc, str_ind_shift]
      cases hs : str_ind "str: [Base64 Image Enconding]" k it <;> rfl
    · rw [if_neg hc, if_neg hc, str_ind_shift]
      cases hs : str_ind ("str: " ++ s) k it <;> rfl
  | pyint n =>
    simp only [strRecNode]
    rw [str_ind_shift]
    cases hs : str_ind _ k it <;> rfl
  | pyfloat r =>
    simp only [strRecNode]
    rw [str_ind_shift]
    cases hs : str_ind _ k it <;> rfl
  | pylist elems =>
    have hre := renderEntries_shift (indentUnit it d)
      (fun _ => str_ind "[>] item:" k it) (fun _ => str_ind "[>] item:" (d + k) it)
      (fun a v => child a (k + 1) v) (fun a v => child a (d + k + 1) v)
      (fun _ => str_ind_shift it "[>] item:" d k)
      (fun x v => hchild x (k + 1) v)
    by_cases he : elems.isEmpty
    · simp only [strRecNode, if_pos he]
      rw [str_ind_shift]
      cases hs : str_ind "list: []" k it <;> rfl
    · simp only [strRecNode, if_neg he]
      rw [hre elems (insert addr vis), str_ind_shift it "list:" d k,
        str_ind_shift it "[" d k, str_ind_shift it "]" d k]
      cases h1 : str_ind "list:" k it with
      | error e => rfl
      | ok t =>
        cases h2 : str_ind "[" k it with
        | error e => rfl
        | ok ob =>
          cases h3 : renderEntries (fun _ => str_ind "[>] item:" k it)
              (fun a v => child a (k + 1) v) elems (insert addr vis) with
          | error e => rfl
          | ok p =>
            obtain ⟨ss, v⟩ := p
            cases h4 : str_ind "]" k it with
            | error e => rfl
            | ok cb =>
              simp only [Except.map]
              rw [joinNlStrings_map_indentS _ _ (by simp)]
              simp only [List.map_cons, List.map_append]
              rfl
  | pytuple elems =>
    have hre := renderEntries_shift (indentUnit it d)
      (fun _ => str_ind "[>] item:" k it) (fun _ => str_ind "[>] item:" (d + k) it)
      (fun a v => child a (k + 1) v) (fun a v => child a (d + k + 1) v)
      (fun _ => str_ind_shift it "[>] item:" d k)
      (fun x v => hchild x (k + 1) v)
    by_cases he : elems.isEmpty
    · simp only [strRecNode, if_pos he]
      rw [str_ind_shift]
      cases hs : str_ind "tuple: ()" k it <;> rfl
    · simp only [strRecNode, if_neg he]
      rw [hre elems (insert addr vis), str_ind_shift it "tuple:" d k,
        str_ind_shift it "(" d k, str_ind_shift it ")" d k]
      cases h1 : str_ind "tuple:" k it with
      | error e => rfl
      | ok t =>
        cases h2 : str_ind "(" k it with
        | error e => rfl
        | ok ob =>
          cases h3 : renderEntries (fun _ => str_ind "[>] item:" k it)
              (fun a v => child a (k + 1) v) elems (insert addr vis) with
          | error e => rfl
          | ok p =>
            obtain ⟨ss, v⟩ := p
            cases h4 : str_ind ")" k it with
            | error e => rfl
            | ok cb =>
              simp only [Except.map]
              rw [joinNlStrings_map_indentS _ _ (by simp)]
              simp only [List.map_cons, List.map_append]
              rfl
  | pydict pairs =>
    have hre := renderEntries_shift (indentUnit it d)
      (fun (kv : String × Nat) => str_ind ("[>] " ++ kv.1 ++ ":") k it)
      (fun (kv : String × Nat) => str_ind ("[>] " ++ kv.1 ++ ":") (d + k) it)
      (fun kv v => child kv.2 (k + 1) v) (fun kv v => child kv.2 (d + k + 1) v)
      (fun x => str_ind_shift it ("[>] " ++ x.1 ++ ":") d k)
      (fun x v => hchild x.2 (k + 1) v)
    by_cases he : pairs.isEmpty
    · simp only [strRecNode, if_pos he]
      rw [str_ind_shift]
      cases hs : str_ind "dict: \x7b\x7d" k it <;> rfl
    · simp only [strRecNode, if_neg he]
      rw [hre pairs (insert addr vis), str_ind_shift it "dict:" d k,
        str_ind_shift it "\x7b" d k, str_ind_shift it "\x7d" d k]
      cases h1 : str_ind "dict:" k it with
      | error e => rfl
      | ok t =>
        cases h2 : str_ind "\x7b" k it with
        | error e => rfl
        | ok ob =>
          cases h3 : renderEntries (fun kv => str_ind ("[>] " ++ kv.1 ++ ":") k it)
              (fun kv v => child kv.2 (k + 1) v) pairs (insert addr vis) with
          | error e => rfl
          | ok p =>
            obtain ⟨ss, v⟩ := p
            cases h4 : str_ind "\x7d" k it with
            | error e => rfl
            | ok cb =>
              simp only [Except.map]
              rw [joinNlStrings_map_indentS _ _ (by simp)]
              simp only [List.map_cons, List.map_append]
              rfl
  | pytype name =>
    simp only [strRecNode]
    rw [str_ind_shift]
    cases hs : str_ind _ k it <;> rfl
  | pyobj cls attrs => simp [Node.isObj] at hnode
  | pyunknown t =>
    simp only [strRecNode]
    rw [str_ind_shift]
    cases hs : str_ind _ k it <;> rfl

theorem strRecStep_shift
    (child : Nat → Nat → Finset Nat → Except RenderError (String × Finset Nat))
    (heap : Heap) (hof : objFree heap) (it : String) (d : Nat)
    (hchild : ∀ a j v, child a (d + j) v =
      (child a j v).map (fun p => (indentS (indentUnit it d) p.1, p.2)))
    (addr k : Nat) (vis : Finset Nat) :
    strRecStep child heap addr (d + k) it vis =
      (strRecStep child heap addr k it vis).map
        (fun p => (indentS (indentUnit it d) p.1, p.2)) := by
  unfold strRecStep
  split
  · rfl
  · rename_i node hfind
    split
    · rw [str_ind_shift]
      cases hs : str_ind ("<circular reference to " ++ typeName node ++ ">") k it <;> rfl
    · exact strRecNode_shift child it d hchild addr k vis node
        (hof _ (heapFind_mem hfind))

/-- The indent-shift identity for the renderer, for heaps with no `Object`
values: rendering at depth `d + k` is the depth-`k` rendering with `d`
extra indent units on every line. -/
theorem str_recursively_shift (heap : Heap) (hof : objFree heap) (it : String)
    (d : Nat) :
    ∀ (fuel addr k : Nat) (vis : Finset Nat),
      str_recursively fuel heap addr (d + k) it vis =
        (str_recursively fuel heap addr k it vis).map
          (fun p => (indentS (indentUnit it d) p.1, p.2)) := by
  intro fuel
  induction fuel with
  | zero => intro addr k vis; rfl
  | succ n ih =>
    intro addr k vis
    rw [str_recursively, str_recursively]
    exact strRecStep_shift _ heap hof it d (fun a j v => ih a j v) addr k vis

/-! ### Supporting pieces for the claim theorems -/

instance {ε α : Type} [DecidableEq ε] [DecidableEq α] : DecidableEq (Except ε α) :=
  fun a b =>
    match a, b with
    | .error e, .error f =>
      if h : e = f then .isTrue (by rw [h]) else .isFalse (fun c => h (Except.error.inj c))
    | .ok x, .ok y =>
      if h : x = y then .isTrue (by rw [h]) else .isFalse (fun c => h (Except.ok.inj c))
    | .error _, .ok _ => .isFalse (fun c => Except.noConfusion c)
    | .ok _, .error _ => .isFalse (fun c => Except.noConfusion c)

theorem sdata_append (a b : String) : (a ++ b).data = a.data ++ b.data := rfl

theorem string_append_empty (s : String) : s ++ "" = s := by
  show String.mk (s.data ++ []) = s
  rw [List.append_nil]

theorem string_append_assoc (a b c : String) : a ++ b ++ c = a ++ (b ++ c) := by
  show String.mk ((a ++ b).data ++ c.data) = String.mk (a.data ++ (b ++ c).data)
  rw [sdata_append, sdata_append, List.append_assoc]

theorem indentUnit_tabs (d : Nat) : indentUnit "tabs" d = List.replicate d '\t' := by
  unfold indentUnit
  rw [if_neg (by decide)]

/-- Rendering a lone text value at depth 0 in tabs mode. -/
theorem render_pystr (s : String) :
    str_recursively 1 [(0, Node.pystr s)] 0 0 "tabs" ∅ =
      .ok ((if (B64_CHECK_LEN ≤ s.length &&
          (dataUriRegex s.data || plusDollar isB64Char s.data)) = true
        then "str: [Base64 Image Enconding]" else "str: " ++ s), ∅) := by
  rw [str_recursively]
  unfold strRecStep
  have hfind : heapFind [(0, Node.pystr s)] 0 = some (Node.pystr s) := rfl
  simp only [hfind]
  rw [if_neg (Finset.not_mem_empty 0)]
  simp only [strRecNode]
  split
  · rw [str_ind_zero (Or.inl rfl)]
    simp only [Finset.erase_insert (Finset.not_mem_empty 0)]
    rfl
  · rw [str_ind_zero (Or.inl rfl)]
    simp only [Finset.erase_insert (Finset.not_mem_empty 0)]
    rfl

/-- A text value the spec's elision condition rejects but the code elides:
1999 base64-alphabet characters followed by one newline (length 2000). -/
def c1bad : String := String.mk (List.replicate 1999 'A' ++ ['\n'])

/-- A text value both the spec and the code elide: 2000 `'A'` characters. -/
def c1good : String := String.mk (List.replicate 2000 'A')

/-- C1 (counterexample): the text of 1999 base64-alphabet characters
followed by one newline has length 2000 and satisfies neither of the
claim's two patterns (it is not solely base64 alphabet and has no data-URI
prefix), so by the claim it should render verbatim; the code elides it,
because `$` also matches just before a trailing newline.  The placeholder
differs from the verbatim rendering. -/
theorem C1_counterexample :
    ¬ SpecElide c1bad.data ∧ 2000 ≤ c1bad.length ∧
    str_recursively 1 [(0, Node.pystr c1bad)] 0 0 "tabs" ∅ =
      .ok ("str: [Base64 Image Enconding]", ∅) ∧
    "str: [Base64 Image Enconding]" ≠ "str: " ++ c1bad := by
  have hlen : c1bad.length = 2000 := by
    show (List.replicate 1999 'A' ++ ['\n']).length = 2000
    rw [List.length_append, List.length_replicate]
    decide
  refine ⟨?_, by rw [hlen], ?_, ?_⟩
  · rintro (⟨sub, body, hcs, hsubne, hlow, hbne, hball⟩ | ⟨hne, hall⟩)
    · have h1 : (c1bad.data).head? = some 'A' := rfl
      have h2 : ("data:image/".data ++ sub ++ ";base64,".data ++ body).head? = some 'd' := rfl
      rw [hcs, h2] at h1
      exact absurd h1 (by decide)
    · have hmem : '\n' ∈ c1bad.data := by
        show '\n' ∈ List.replicate 1999 'A' ++ ['\n']
        exact List.mem_append_right _ (List.mem_singleton.mpr rfl)
      exact absurd (hall '\n' hmem) (by decide)
  · rw [render_pystr c1bad, if_pos]
    rw [Bool.and_eq_true]
    refine ⟨?_, ?_⟩
    · rw [decide_eq_true_eq, hlen]
      decide
    · rw [Bool.or_eq_true]
      refine Or.inr ((plusDollar_iff _ _).mpr (Or.inr ⟨?_, ?_, ?_⟩))
      · exact List.getLast?_concat _
      · show (List.replicate 1999 'A' ++ ['\n']).dropLast ≠ []
        rw [List.dropLast_concat]
        intro hnil
        have hl := congrArg List.length hnil
        rw [List.length_replicate] at hl
        exact absurd hl (by decide)
      · show ∀ c ∈ (List.replicate 1999 'A' ++ ['\n']).dropLast, isB64Char c = true
        rw [List.dropLast_concat]
        intro c hc
        rw [List.eq_of_mem_replicate hc]
        decide
  · intro h
    have hlen2 : ("str: " ++ c1bad).length = 2005 := by
      show ("str: ".data ++ (List.replicate 1999 'A' ++ ['\n'])).length = 2005
      rw [List.length_append, List.length_append, List.length_replicate]
      rfl
    have h3 := congrArg String.length h
    rw [hlen2] at h3
    exact absurd h3 (by decide)

/-- C1 (amended): a lone text value elides exactly when its length is at
least 2000 and it matches one of the two patterns, where each pattern may
additionally be followed by one final newline (Python's `$` also matches
just before a trailing newline); otherwise it renders verbatim after
`"str: "`. -/
theorem C1_theorem (s : String) :
    (2000 ≤ s.length ∧ AmendedElide s.data →
      str_recursively 1 [(0, Node.pystr s)] 0 0 "tabs" ∅ =
        .ok ("str: [Base64 Image Enconding]", ∅)) ∧
    (¬ (2000 ≤ s.length ∧ AmendedElide s.data) →
      str_recursively 1 [(0, Node.pystr s)] 0 0 "tabs" ∅ =
        .ok ("str: " ++ s, ∅)) := by
  have hr := render_pystr s
  constructor
  · rintro ⟨hlen, hel⟩
    rw [hr, if_pos]
    rw [Bool.and_eq_true]
    exact ⟨decide_eq_true hlen, (regex_iff_amended s.data).mpr hel⟩
  · intro hn
    rw [hr, if_neg]
    intro hcond
    apply hn
    rw [Bool.and_eq_true] at hcond
    exact ⟨of_decide_eq_true hcond.1, (regex_iff_amended s.data).mp hcond.2⟩

/-- C1 (witness): 2000 `'A'` characters satisfy the amended condition and
render as the placeholder. -/
theorem C1_theorem_witness :
    (2000 ≤ c1good.length ∧ AmendedElide c1good.data) ∧
    str_recursively 1 [(0, Node.pystr c1good)] 0 0 "tabs" ∅ =
      .ok ("str: [Base64 Image Enconding]", ∅) := by
  have hcond : 2000 ≤ c1good.length ∧ AmendedElide c1good.data := by
    constructor
    · show 2000 ≤ (List.replicate 2000 'A').length
      rw [List.length_replicate]
    · refine Or.inl (Or.inr ⟨?_, ?_⟩)
      · show List.replicate 2000 'A' ≠ []
        intro hnil
        have hl := congrArg List.length hnil
        rw [List.length_replicate] at hl
        exact absurd hl (by decide)
      · show ∀ c ∈ List.replicate 2000 'A', isB64Char c = true
        intro c hc
        rw [List.eq_of_mem_replicate hc]
        decide
  exact ⟨hcond, (C1_theorem c1good).1 hcond⟩

/-! ### Concrete scenario heaps -/

/-- Two distinct identities (1 and 2) with structurally equal contents. -/
def structEqHeap : Heap :=
  [(0, .pylist [1, 2]), (1, .pylist [3]), (2, .pylist [4]), (3, .pyint 7), (4, .pyint 7)]

/-- One identity (1) shared by two branches of the same list — a shared,
non-cyclic reference. -/
def sharedHeap : Heap := [(0, .pylist [1, 1]), (1, .pylist [2]), (2, .pyint 7)]

/-- A list that contains itself. -/
def selfHeap : Heap := [(0, .pylist [0])]

/-- The list `[1, 2]`. -/
def c8Heap : Heap := [(0, .pylist [1, 2]), (1, .pyint 1), (2, .pyint 2)]

/-- C2: a value is flagged as circular exactly on re-entry into an ancestor:
(a) whenever the address is already on the path, the output is the circular
message built from the value's type name and nothing is recursed into;
(b) two distinct but structurally equal values are both rendered in full
(no circular marker anywhere in the output);
(c) the same identity referenced from two non-overlapping branches is
rendered in full at both occurrences. -/
theorem C2_theorem :
    (∀ (fuel : Nat) (heap : Heap) (addr : Nat) (node : Node) (ind : Nat)
       (it : String) (vis : Finset Nat),
       heapFind heap addr = some node → addr ∈ vis →
       str_recursively (fuel + 1) heap addr ind it vis =
         (str_ind ("<circular reference to " ++ typeName node ++ ">") ind it).map
           (fun s => (s, vis))) ∧
    str_recursively 6 structEqHeap 0 0 "tabs" ∅ =
      .ok ("list:\n[\n[>] item:\n\tlist:\n\t[\n\t[>] item:\n\t\tint: 7\n\t]\n[>] item:\n\tlist:\n\t[\n\t[>] item:\n\t\tint: 7\n\t]\n]", ∅) ∧
    str_recursively 6 sharedHeap 0 0 "tabs" ∅ =
      .ok ("list:\n[\n[>] item:\n\tlist:\n\t[\n\t[>] item:\n\t\tint: 7\n\t]\n[>] item:\n\tlist:\n\t[\n\t[>] item:\n\t\tint: 7\n\t]\n]", ∅) := by
  refine ⟨?_, rfl, rfl⟩
  intro fuel heap addr node ind it vis hfind hmem
  rw [str_recursively]
  unfold strRecStep
  simp only [hfind]
  rw [if_pos hmem]

/-- C2 (witness): re-entering the self-referential list at depth 1 with its
own identity on the path yields exactly the circular message. -/
theorem C2_theorem_witness :
    heapFind selfHeap 0 = some (Node.pylist [0]) ∧ 0 ∈ ({0} : Finset Nat) ∧
    str_recursively 1 selfHeap 0 1 "tabs" {0} =
      (str_ind "<circular reference to list>" 1 "tabs").map
        (fun s => (s, ({0} : Finset Nat))) :=
  ⟨rfl, by decide,
    C2_theorem.1 0 selfHeap 0 (Node.pylist [0]) 1 "tabs" {0} rfl (by decide)⟩

/-- C3: with an unrecognized indent style the renderer raises the single
`InvalidConfiguration` error before producing any output, for every live
value; with a valid style, a closed heap and enough fuel it always returns
a string. -/
theorem C3_theorem :
    (∀ (fuel : Nat) (heap : Heap) (addr ind : Nat) (it : String)
       (vis : Finset Nat) (node : Node),
       it ≠ "tabs" → it ≠ "spaces" → heapFind heap addr = some node → 0 < fuel →
       str_recursively fuel heap addr ind it vis = .error .invalidConfiguration) ∧
    (∀ (fuel : Nat) (heap : Heap) (it : String) (addr ind : Nat) (vis : Finset Nat),
       closedHeap heap → (it = "tabs" ∨ it = "spaces") → addr ∈ heapKeys heap →
       (heapKeys heap \ vis).card < fuel →
       ∃ out, str_recursively fuel heap addr ind it vis = .ok out) := by
  constructor
  · intro fuel heap addr ind it vis node h1 h2 hfind hfuel
    exact str_recursively_invalid fuel heap addr ind h1 h2 vis node hfind hfuel
  · intro fuel heap it addr ind vis hclosed hit haddr hcard
    exact str_recursively_total fuel heap hclosed hit addr ind vis haddr hcard

/-- C3 (witness): an unrecognized style `"none"` raises on a concrete value,
and tabs mode succeeds on the same value. -/
theorem C3_theorem_witness :
    ("none" ≠ "tabs" ∧ "none" ≠ "spaces" ∧
      heapFind selfHeap 0 = some (Node.pylist [0]) ∧ (0 : Nat) < 1 ∧
      str_recursively 1 selfHeap 0 0 "none" ∅ = .error .invalidConfiguration) ∧
    (closedHeap selfHeap ∧ 0 ∈ heapKeys selfHeap ∧
      (heapKeys selfHeap \ ∅).card < 2 ∧
      ∃ out, str_recursively 2 selfHeap 0 0 "tabs" ∅ = .ok out) := by
  constructor
  · exact ⟨by decide, by decide, rfl, by decide,
      C3_theorem.1 1 selfHeap 0 0 "none" ∅ (Node.pylist [0])
        (by decide) (by decide) rfl (by decide)⟩
  · have hclosed : closedHeap selfHeap := by
      intro p hp a ha
      simp only [selfHeap, List.mem_singleton] at hp
      subst hp
      simp only [nodeChildren, List.mem_singleton] at ha
      subst ha
      decide
    refine ⟨hclosed, by decide, by decide, ?_⟩
    exact C3_theorem.2 2 selfHeap "tabs" 0 0 ∅ hclosed (Or.inl rfl)
      (by decide) (by decide)

/-- C6: the visited set holds exactly the ancestors on the current path:
every successful render call returns the visited set it was given, on every
exit route (scalar returns, cycle detection, and the composite branches
that add the current identity before recursing and remove it after). -/
theorem C6_theorem :
    ∀ (fuel : Nat) (heap : Heap) (addr ind : Nat) (it : String)
      (vis : Finset Nat) (out : String × Finset Nat),
      str_recursively fuel heap addr ind it vis = .ok out → out.2 = vis :=
  str_recursively_visited

/-- C6 (witness): the shared-reference render returns with the empty visited
set it started from. -/
theorem C6_theorem_witness :
    str_recursively 6 sharedHeap 0 0 "tabs" ∅ =
      .ok ("list:\n[\n[>] item:\n\tlist:\n\t[\n\t[>] item:\n\t\tint: 7\n\t]\n[>] item:\n\tlist:\n\t[\n\t[>] item:\n\t\tint: 7\n\t]\n]", ∅) ∧
    (("list:\n[\n[>] item:\n\tlist:\n\t[\n\t[>] item:\n\t\tint: 7\n\t]\n[>] item:\n\tlist:\n\t[\n\t[>] item:\n\t\tint: 7\n\t]\n]", (∅ : Finset Nat)) :
      String × Finset Nat).2 = ∅ :=
  ⟨rfl, C6_theorem 6 sharedHeap 0 0 "tabs" ∅ _ rfl⟩

/-- C7: the renderer terminates on every value graph including
self-referential ones — concretely, whenever the fuel exceeds the number of
live identities not yet on the path, rendering a live identity of a closed
heap succeeds (the Python recursion depth is bounded the same way, so the
function always returns); and a list containing itself renders its nested
occurrence as the circular message instead of recursing forever. -/
theorem C7_theorem :
    (∀ (fuel : Nat) (heap : Heap) (it : String) (addr ind : Nat) (vis : Finset Nat),
       closedHeap heap → (it = "tabs" ∨ it = "spaces") → addr ∈ heapKeys heap →
       (heapKeys heap \ vis).card < fuel →
       ∃ out, str_recursively fuel heap addr ind it vis = .ok out) ∧
    str_recursively 2 selfHeap 0 0 "tabs" ∅ =
      .ok ("list:\n[\n[>] item:\n\t<circular reference to list>\n]", ∅) := by
  constructor
  · intro fuel heap it addr ind vis hclosed hit haddr hcard
    exact str_recursively_total fuel heap hclosed hit addr ind vis haddr hcard
  · rfl

/-- C7 (witness): the self-referential list satisfies the hypotheses and
rendering it with fuel 2 succeeds. -/
theorem C7_theorem_witness :
    closedHeap selfHeap ∧ 0 ∈ heapKeys selfHeap ∧ (heapKeys selfHeap \ ∅).card < 2 ∧
    ∃ out, str_recursively 2 selfHeap 0 0 "tabs" ∅ = .ok out := by
  have hclosed : closedHeap selfHeap := by
    intro p hp a ha
    simp only [selfHeap, List.mem_singleton] at hp
    subst hp
    simp only [nodeChildren, List.mem_singleton] at ha
    subst ha
    decide
  exact ⟨hclosed, by decide, by decide,
    C7_theorem.1 2 selfHeap "tabs" 0 0 ∅ hclosed (Or.inl rfl) (by decide) (by decide)⟩

/-- A single object with one attribute, used for the depth-cutoff claims. -/
def c9Heap : Heap := [(0, .pyobj "C" [("a", 1)]), (1, .pyint 5)]

/-- A chain of 12 objects: identity `i` has one attribute `c` referring to
identity `i+1`; the object at nesting level 11 has an attribute that would
lead back to the root if it were ever expanded. -/
def c4Heap : Heap :=
  [(0, .pyobj "N" [("c", 1)]), (1, .pyobj "N" [("c", 2)]), (2, .pyobj "N" [("c", 3)]),
   (3, .pyobj "N" [("c", 4)]), (4, .pyobj "N" [("c", 5)]), (5, .pyobj "N" [("c", 6)]),
   (6, .pyobj "N" [("c", 7)]), (7, .pyobj "N" [("c", 8)]), (8, .pyobj "N" [("c", 9)]),
   (9, .pyobj "N" [("c", 10)]), (10, .pyobj "N" [("c", 11)]),
   (11, .pyobj "N" [("deeper", 0)])]

/-- `i` tab characters in front of a (single-line) string. -/
def tabsPre (i : Nat) (s : String) : String :=
  String.mk (List.replicate i '\t' ++ s.data)

/-- The expected rendering of the object chain: `r` fully expanded levels
starting at indent `i`, then a header plus truncation marker. -/
def c4Expect : Nat → Nat → String
  | 0, i => joinNlStrings [tabsPre i "object of class \x27N\x27",
      tabsPre (i + 1) "<max depth reached>"]
  | r + 1, i => joinNlStrings [tabsPre i "object of class \x27N\x27",
      tabsPre i "\x7b", tabsPre i "[>] c:", c4Expect r (i + 1), tabsPre i "\x7d"]

set_option maxRecDepth 4000 in
/-- C4: an `Object` rendered at a depth exceeding the maximum recursion
depth of 10 emits its header followed by the truncation marker line and
stops — the result does not depend on the attributes at all; concretely,
the 12-level object chain expands levels 0 through 10 and renders the
truncation marker at nesting level 11. -/
theorem C4_theorem :
    (∀ (fuel : Nat) (heap : Heap) (addr ind : Nat) (it : String)
       (vis : Finset Nat) (cls : String) (attrs : List (String × Nat)),
       heapFind heap addr = some (.pyobj cls attrs) → addr ∉ vis →
       MAX_RECURSION_DEPTH < ind →
       str_recursively (fuel + 1) heap addr ind it vis =
         (str_ind ("object of class \x27" ++ cls ++ "\x27") ind it).bind (fun h =>
           (str_ind "<max depth reached>" (ind + 1) it).map
             (fun m => (joinNlStrings [h, m], vis)))) ∧
    str_recursively 13 c4Heap 0 0 "tabs" ∅ = .ok (c4Expect 11 0, ∅) := by
  constructor
  · intro fuel heap addr ind it vis cls attrs hfind hmem hd
    rw [str_recursively]
    unfold strRecStep
    simp only [hfind]
    rw [if_neg hmem]
    cases hh : str_ind ("object of class \x27" ++ cls ++ "\x27") ind it with
    | error e => simp only [strRecNode, hh]; rfl
    | ok h =>
      simp only [strRecNode, hh]
      rw [if_pos hd]
      cases hm : str_ind "<max depth reached>" (ind + 1) it with
      | error e => rfl
      | ok m =>
        simp only [Except.bind, Except.map]
        rw [Finset.erase_insert hmem]
  · rfl

/-- C4 (witness): one object with an attribute, rendered at depth 11,
truncates without touching the attribute. -/
theorem C4_theorem_witness :
    heapFind c9Heap 0 = some (Node.pyobj "C" [("a", 1)]) ∧
    (0 ∉ (∅ : Finset Nat)) ∧ MAX_RECURSION_DEPTH < 11 ∧
    str_recursively 1 c9Heap 0 11 "tabs" ∅ =
      (str_ind "object of class \x27C\x27" 11 "tabs").bind (fun h =>
        (str_ind "<max depth reached>" 12 "tabs").map
          (fun m => (joinNlStrings [h, m], (∅ : Finset Nat)))) :=
  ⟨rfl, by decide, by decide,
    C4_theorem.1 0 c9Heap 0 11 "tabs" ∅ "C" [("a", 1)] rfl (by decide) (by decide)⟩

set_option maxRecDepth 4000 in
/-- C5: a byte sequence renders as `"bytes: "` followed by its first
`min(4, length)` bytes as two-digit lowercase hexadecimal pairs separated
by single spaces, with `" ..."` appended exactly when the sequence is
longer than 4 bytes; and every hex pair is two lowercase hex digits. -/
theorem C5_theorem :
    (∀ bs : List (Fin 256),
      str_recursively 1 [(0, Node.pybytes bs)] 0 0 "tabs" ∅ =
        .ok ("bytes: " ++ String.intercalate " " ((bs.take (min 4 bs.length)).map byteHex)
          ++ (if 4 < bs.length then " ..." else ""), ∅)) ∧
    (∀ b : Fin 256, (byteHex b).length = 2 ∧
      ∀ c ∈ (byteHex b).data, c ∈ "0123456789abcdef".data) := by
  constructor
  · intro bs
    rw [str_recursively]
    unfold strRecStep
    have hfind : heapFind [(0, Node.pybytes bs)] 0 = some (Node.pybytes bs) := rfl
    simp only [hfind]
    rw [if_neg (Finset.not_mem_empty 0)]
    simp only [strRecNode]
    by_cases h4 : 4 < bs.length
    · rw [if_pos h4, if_pos h4, str_ind_zero (Or.inl rfl), string_append_assoc]
      simp only [Except.map, Finset.erase_insert (Finset.not_mem_empty 0)]
    · rw [if_neg h4, if_neg h4, str_ind_zero (Or.inl rfl), string_append_empty]
      simp only [Except.map, Finset.erase_insert (Finset.not_mem_empty 0)]
  · decide

/-- C8: empty containers render as the single lines `"list: []"`,
`"tuple: ()"` and `"dict: {}"`; a non-empty list renders a header line, an
opening bracket line, then for each element in order an item-marker line
followed by the recursively rendered element at depth+1, then a closing
bracket line; and `render([1, 2])` in tabs mode yields exactly the claimed
lines. -/
theorem C8_theorem :
    str_recursively 1 [(0, Node.pylist [])] 0 0 "tabs" ∅ = .ok ("list: []", ∅) ∧
    str_recursively 1 [(0, Node.pytuple [])] 0 0 "tabs" ∅ = .ok ("tuple: ()", ∅) ∧
    str_recursively 1 [(0, Node.pydict [])] 0 0 "tabs" ∅ = .ok ("dict: \x7b\x7d", ∅) ∧
    (∀ (fuel : Nat) (heap : Heap) (addr ind : Nat) (it : String)
       (vis : Finset Nat) (elems : List Nat),
       (it = "tabs" ∨ it = "spaces") → heapFind heap addr = some (.pylist elems) →
       addr ∉ vis → elems ≠ [] →
       str_recursively (fuel + 1) heap addr ind it vis =
         (renderEntries (fun _ => str_ind "[>] item:" ind it)
            (fun a v => str_recursively fuel heap a (ind + 1) it v) elems
            (insert addr vis)).map
           (fun p => (joinNlStrings
              (String.mk (indentLines (indentUnit it ind) "list:".data) ::
               String.mk (indentLines (indentUnit it ind) "[".data) ::
               (p.1 ++ [String.mk (indentLines (indentUnit it ind) "]".data)])),
             p.2.erase addr))) ∧
    str_recursively 2 c8Heap 0 0 "tabs" ∅ =
      .ok ("list:\n[\n[>] item:\n\tint: 1\n[>] item:\n\tint: 2\n]", ∅) := by
  refine ⟨rfl, rfl, rfl, ?_, rfl⟩
  intro fuel heap addr ind it vis elems hit hfind hmem hne
  rw [str_recursively]
  unfold strRecStep
  simp only [hfind]
  rw [if_neg hmem]
  cases elems with
  | nil => exact absurd rfl hne
  | cons x rest =>
    simp only [strRecNode]
    rw [if_neg (by simp), str_ind_valid hit "list:", str_ind_valid hit "[",
      str_ind_valid hit "]"]
    cases hre : renderEntries (fun _ => str_ind "[>] item:" ind it)
        (fun a v => str_recursively fuel heap a (ind + 1) it v) (x :: rest)
        (insert addr vis) with
    | error e => rfl
    | ok p =>
      obtain ⟨ss, v⟩ := p
      rfl

/-- C8 (witness): the general non-empty shape instantiated on `[1, 2]`. -/
theorem C8_theorem_witness :
    heapFind c8Heap 0 = some (Node.pylist [1, 2]) ∧ (0 ∉ (∅ : Finset Nat)) ∧
    ([1, 2] : List Nat) ≠ [] ∧
    str_recursively 2 c8Heap 0 0 "tabs" ∅ =
      (renderEntries (fun _ => str_ind "[>] item:" 0 "tabs")
        (fun a v => str_recursively 1 c8Heap a 1 "tabs" v) [1, 2] (insert 0 ∅)).map
        (fun p => (joinNlStrings
          (String.mk (indentLines (indentUnit "tabs" 0) "list:".data) ::
           String.mk (indentLines (indentUnit "tabs" 0) "[".data) ::
           (p.1 ++ [String.mk (indentLines (indentUnit "tabs" 0) "]".data)])),
          p.2.erase 0)) :=
  ⟨rfl, by decide, by decide,
    C8_theorem.2.2.2.1 1 c8Heap 0 0 "tabs" ∅ [1, 2] (Or.inl rfl) rfl
      (by decide) (by decide)⟩

/-- C9 (counterexample): for the single object with one attribute, rendering
at depth 11 truncates (the cutoff reads the absolute depth), so it is not
the depth-0 rendering with 11 indent units prefixed per line. -/
theorem C9_counterexample :
    str_recursively 2 c9Heap 0 11 "tabs" ∅ ≠
      (str_recursively 2 c9Heap 0 0 "tabs" ∅).map
        (fun p => (indentS (indentUnit "tabs" 11) p.1, p.2)) := by decide

/-- C9 (amended): for every value whose graph contains no `Object` node,
rendering at depth d equals the depth-0 rendering with every line prefixed
by d repetitions of the indent unit (the `Object` depth cutoff reads the
absolute depth, so the identity fails there); and indenting any text at
depth 0 leaves it unchanged. -/
theorem C9_theorem :
    (∀ (heap : Heap), objFree heap →
      ∀ (it : String) (fuel addr d : Nat) (vis : Finset Nat),
        str_recursively fuel heap addr d it vis =
          (str_recursively fuel heap addr 0 it vis).map
            (fun p => (indentS (indentUnit it d) p.1, p.2))) ∧
    (∀ (arg it : String), it = "tabs" ∨ it = "spaces" → str_ind arg 0 it = .ok arg) := by
  constructor
  · intro heap hof it fuel addr d vis
    exact str_recursively_shift heap hof it d fuel addr 0 vis
  · intro arg it hit
    exact str_ind_zero hit arg

/-- C9 (witness): the object-free heap of `[1, 2]` shifted to depth 1, and
the depth-0 identity on a two-line text. -/
theorem C9_theorem_witness :
    objFree c8Heap ∧
    str_recursively 2 c8Heap 0 1 "tabs" ∅ =
      (str_recursively 2 c8Heap 0 0 "tabs" ∅).map
        (fun p => (indentS (indentUnit "tabs" 1) p.1, p.2)) ∧
    ("tabs" = "tabs" ∨ "tabs" = "spaces") ∧ str_ind "a\nb" 0 "tabs" = .ok "a\nb" := by
  have hof : objFree c8Heap := by
    unfold objFree
    decide
  exact ⟨hof, C9_theorem.1 c8Heap hof "tabs" 2 0 1 ∅, Or.inl rfl,
    C9_theorem.2 "a\nb" "tabs" (Or.inl rfl)⟩

/-! ### C10: arbitrarily deep list/dict nesting never truncates -/

theorem heapFind_append (h1 h2 : Heap) (a : Nat) :
    heapFind (h1 ++ h2) a =
      match heapFind h1 a with
      | some n => some n
      | none => heapFind h2 a := by
  induction h1 with
  | nil => rfl
  | cons p rest ih =>
    obtain ⟨b, m⟩ := p
    simp only [List.cons_append, heapFind]
    split
    · rfl
    · exact ih

theorem heapFind_range_map_none (f : Nat → Node) (m a : Nat) (h : m ≤ a) :
    heapFind ((List.range m).map (fun i => (i, f i))) a = none := by
  induction m with
  | zero => rfl
  | succ k ih =>
    rw [List.range_succ, List.map_append, heapFind_append, ih (by omega)]
    simp only [List.map_cons, List.map_nil, heapFind]
    rw [if_neg (by omega)]

theorem heapFind_range_map (f : Nat → Node) (m a : Nat) (h : a < m) :
    heapFind ((List.range m).map (fun i => (i, f i))) a = some (f a) := by
  induction m with
  | zero => omega
  | succ k ih =>
    rw [List.range_succ, List.map_append, heapFind_append]
    by_cases hak : a < k
    · rw [ih hak]
    · have hake : a = k := by omega
      subst hake
      rw [heapFind_range_map_none f a a (le_refl a)]
      simp only [List.map_cons, List.map_nil, heapFind]
      simp

/-- The value at chain position `i`: the terminal integer at position `n`,
otherwise an alternation of one-element lists and one-entry dicts. -/
def c10Node (n i : Nat) : Node :=
  if i = n then .pyint 7
  else if i % 2 = 0 then .pylist [i + 1]
  else .pydict [("k", i + 1)]

/-- A list/dict alternation nested `n` levels deep, ending in an integer. -/
def c10Heap (n : Nat) : Heap := (List.range (n + 1)).map (fun i => (i, c10Node n i))

/-- The fully expanded rendering of the chain from position `i` with `j`
levels remaining, in tabs mode at indent `i`. -/
def c10Expect : Nat → Nat → String
  | i, 0 => tabsPre i "int: 7"
  | i, j + 1 =>
    if i % 2 = 0 then
      joinNlStrings [tabsPre i "list:", tabsPre i "[", tabsPre i "[>] item:",
        c10Expect (i + 1) j, tabsPre i "]"]
    else
      joinNlStrings [tabsPre i "dict:", tabsPre i "\x7b", tabsPre i "[>] k:",
        c10Expect (i + 1) j, tabsPre i "\x7d"]

theorem renderEntries_single {α : Type} (mark : α → Except RenderError String)
    (child : α → Finset Nat → Except RenderError (String × Finset Nat))
    (x : α) (v : Finset Nat) (m s : String) (v1 : Finset Nat)
    (hm : mark x = .ok m) (hc : child x v = .ok (s, v1)) :
    renderEntries mark child [x] v = .ok ([m, s], v1) := by
  simp only [renderEntries, hm, hc]

theorem c10_render (n : Nat) :
    ∀ (j i : Nat), i + j = n → ∀ (vis : Finset Nat), (∀ a ∈ vis, a < i) →
      str_recursively (j + 1) (c10Heap n) i i "tabs" vis = .ok (c10Expect i j, vis) := by
  intro j
  induction j with
  | zero =>
    intro i hin vis hvis
    have hnmem : i ∉ vis := fun hmem => absurd (hvis i hmem) (lt_irrefl i)
    have hfind : heapFind (c10Heap n) i = some (c10Node n i) :=
      heapFind_range_map _ _ _ (by omega)
    have hnode : c10Node n i = .pyint 7 := by
      unfold c10Node
      rw [if_pos (by omega)]
    rw [str_recursively]
    unfold strRecStep
    simp only [hfind, hnode]
    rw [if_neg hnmem]
    simp only [strRecNode]
    rw [str_ind_single (Or.inl rfl) (show '\n' ∉ ("int: " ++ toString (7 : Int)).data by decide) i]
    simp only [Except.map]
    rw [Finset.erase_insert hnmem]
    rfl
  | succ j ihj =>
    intro i hin vis hvis
    have hnmem : i ∉ vis := fun hmem => absurd (hvis i hmem) (lt_irrefl i)
    have hfind : heapFind (c10Heap n) i = some (c10Node n i) :=
      heapFind_range_map _ _ _ (by omega)
    have hvis' : ∀ a ∈ insert i vis, a < i + 1 := by
      intro a ha
      rcases Finset.mem_insert.mp ha with h | h
      · omega
      · have := hvis a h
        omega
    have hchild := ihj (i + 1) (by omega) (insert i vis) hvis'
    rw [str_recursively]
    unfold strRecStep
    simp only [hfind]
    rw [if_neg hnmem]
    have hine : ¬ i = n := by omega
    by_cases hpar : i % 2 = 0
    · have hnode : c10Node n i = .pylist [i + 1] := by
        unfold c10Node
        rw [if_neg hine, if_pos hpar]
      rw [hnode]
      simp only [strRecNode]
      rw [if_neg (by simp)]
      have hs1 := str_ind_single (Or.inl rfl) (show '\n' ∉ "list:".data by decide) i
      have hs2 := str_ind_single (Or.inl rfl) (show '\n' ∉ "[".data by decide) i
      have hs3 := str_ind_single (Or.inl rfl) (show '\n' ∉ "]".data by decide) i
      have hre := renderEntries_single (fun _ => str_ind "[>] item:" i "tabs")
        (fun a v => str_recursively (j + 1) (c10Heap n) a (i + 1) "tabs" v)
        (i + 1) (insert i vis) _ _ _
        (str_ind_single (Or.inl rfl) (show '\n' ∉ "[>] item:".data by decide) i)
        hchild
      simp only [hs1, hs2, hre, hs3]
      rw [Finset.erase_insert hnmem]
      have he : c10Expect i (j + 1) = joinNlStrings [tabsPre i "list:", tabsPre i "[",
          tabsPre i "[>] item:", c10Expect (i + 1) j, tabsPre i "]"] := by
        rw [c10Expect]
        rw [if_pos hpar]
      rw [he]
      rfl
    · have hnode : c10Node n i = .pydict [("k", i + 1)] := by
        unfold c10Node
        rw [if_neg hine, if_neg hpar]
      rw [hnode]
      simp only [strRecNode]
      rw [if_neg (by simp)]
      have hs1 := str_ind_single (Or.inl rfl) (show '\n' ∉ "dict:".data by decide) i
      have hs2 := str_ind_single (Or.inl rfl) (show '\n' ∉ "\x7b".data by decide) i
      have hs3 := str_ind_single (Or.inl rfl) (show '\n' ∉ "\x7d".data by decide) i
      have hre := renderEntries_single (fun kv => str_ind ("[>] " ++ kv.1 ++ ":") i "tabs")
        (fun (kv : String × Nat) v =>
          str_recursively (j + 1) (c10Heap n) kv.2 (i + 1) "tabs" v)
        ("k", i + 1) (insert i vis) _ _ _
        (str_ind_single (Or.inl rfl) (show '\n' ∉ ("[>] " ++ "k" ++ ":").data by decide) i)
        hchild
      simp only [hs1, hs2, hre, hs3]
      rw [Finset.erase_insert hnmem]
      have he : c10Expect i (j + 1) = joinNlStrings [tabsPre i "dict:", tabsPre i "\x7b",
          tabsPre i "[>] k:", c10Expect (i + 1) j, tabsPre i "\x7d"] := by
        rw [c10Expect]
        rw [if_neg hpar]
      rw [he]
      rfl

theorem mem_joinNL {c : Char} :
    ∀ {ls : List (List Char)}, c ∈ joinNL ls → c = '\n' ∨ ∃ l ∈ ls, c ∈ l := by
  intro ls
  induction ls with
  | nil => intro h; simp [joinNL] at h
  | cons l ls' ih =>
    intro h
    cases ls' with
    | nil => exact Or.inr ⟨l, by simp, h⟩
    | cons m ms =>
      rw [joinNL_cons (by simp)] at h
      rcases List.mem_append.mp h with h | h
      · exact Or.inr ⟨l, by simp, h⟩
      · rcases List.mem_cons.mp h with h | h
        · exact Or.inl h
        · rcases ih h with h | ⟨l2, hl2, hc⟩
          · exact Or.inl h
          · exact Or.inr ⟨l2, List.mem_cons_of_mem _ hl2, hc⟩

theorem x_not_tabsPre {s : String} (hs : 'x' ∉ s.data) (i : Nat) :
    'x' ∉ (tabsPre i s).data := by
  intro h
  rcases List.mem_append.mp h with h | h
  · exact absurd (List.eq_of_mem_replicate h) (by decide)
  · exact hs h

theorem c10_no_x : ∀ (j i : Nat), 'x' ∉ (c10Expect i j).data := by
  intro j
  induction j with
  | zero => intro i; exact x_not_tabsPre (by decide) i
  | succ j ih =>
    intro i
    by_cases hpar : i % 2 = 0
    · rw [show c10Expect i (j + 1) = joinNlStrings [tabsPre i "list:", tabsPre i "[",
          tabsPre i "[>] item:", c10Expect (i + 1) j, tabsPre i "]"] by
        rw [c10Expect, if_pos hpar]]
      intro h
      rcases mem_joinNL h with h2 | ⟨l, hl, hc⟩
      · exact absurd h2 (by decide)
      · simp only [List.map_cons, List.map_nil, List.mem_cons, List.not_mem_nil,
          or_false] at hl
        rcases hl with rfl | rfl | rfl | rfl | rfl
        · exact x_not_tabsPre (by decide) i hc
        · exact x_not_tabsPre (by decide) i hc
        · exact x_not_tabsPre (by decide) i hc
        · exact ih (i + 1) hc
        · exact x_not_tabsPre (by decide) i hc
    · rw [show c10Expect i (j + 1) = joinNlStrings [tabsPre i "dict:", tabsPre i "\x7b",
          tabsPre i "[>] k:", c10Expect (i + 1) j, tabsPre i "\x7d"] by
        rw [c10Expect, if_neg hpar]]
      intro h
      rcases mem_joinNL h with h2 | ⟨l, hl, hc⟩
      · exact absurd h2 (by decide)
      · simp only [List.map_cons, List.map_nil, List.mem_cons, List.not_mem_nil,
          or_false] at hl
        rcases hl with rfl | rfl | rfl | rfl | rfl
        · exact x_not_tabsPre (by decide) i hc
        · exact x_not_tabsPre (by decide) i hc
        · exact x_not_tabsPre (by decide) i hc
        · exact ih (i + 1) hc
        · exact x_not_tabsPre (by decide) i hc

/-! ### Characters of the renderer's output

For the no-truncation-marker theorem we trace every character of the
output back to either the renderer's own fixed emissions or to text
carried by the input values.  The marker `"<max depth reached>"` contains
the letter `'x'`, which occurs in no fixed emission (structural labels,
hex pairs, digit strings, indent units, newlines), so an output free of
`'x'` cannot contain the marker. -/

theorem mem_splitOnNL_subset (cs : List Char) :
    ∀ l ∈ splitOnNL cs, ∀ c ∈ l, c ∈ cs := by
  induction cs with
  | nil =>
    intro l hl c hc
    simp only [splitOnNL, List.mem_singleton] at hl
    subst hl
    simp at hc
  | cons a rest ih =>
    intro l hl c hc
    simp only [splitOnNL] at hl
    by_cases ha : a = '\n'
    · rw [if_pos ha] at hl
      rcases List.mem_cons.mp hl with rfl | h
      · simp at hc
      · exact List.mem_cons_of_mem _ (ih l h c hc)
    · rw [if_neg ha] at hl
      cases hsp : splitOnNL rest with
      | nil => exact absurd hsp (splitOnNL_ne_nil rest)
      | cons m ms =>
        rw [hsp] at hl
        rcases List.mem_cons.mp hl with rfl | h
        · rcases List.mem_cons.mp hc with rfl | h2
          · exact List.mem_cons_self _ _
          · exact List.mem_cons_of_mem _ (ih m (hsp ▸ List.mem_cons_self m ms) c h2)
        · exact List.mem_cons_of_mem _ (ih l (hsp ▸ List.mem_cons.mpr (Or.inr h)) c hc)

theorem mem_indentLines {c : Char} {u cs : List Char} (h : c ∈ indentLines u cs) :
    c ∈ u ∨ c = '\n' ∨ c ∈ cs := by
  unfold indentLines at h
  rcases mem_joinNL h with h | ⟨l, hl, hc⟩
  · exact Or.inr (Or.inl h)
  · rcases List.mem_map.mp hl with ⟨m, hm, rfl⟩
    rcases List.mem_append.mp hc with h2 | h2
    · exact Or.inl h2
    · exact Or.inr (Or.inr (mem_splitOnNL_subset cs m hm c h2))

/-- A character of a successful `str_ind` output that is not an indent
character and not a newline comes from the argument. -/
theorem str_ind_mem {c : Char} (hc1 : c ≠ ' ') (hc2 : c ≠ '\t') (hc3 : c ≠ '\n')
    {arg : String} {ind : Nat} {it : String} {s : String}
    (h : str_ind arg ind it = .ok s) (hmem : c ∈ s.data) : c ∈ arg.data := by
  unfold str_ind at h
  split at h
  · exact absurd h (by simp)
  · rename_i space hspace
    cases h
    rcases mem_indentLines hmem with h | h | h
    · split at hspace
      · cases hspace
        exact absurd (List.eq_of_mem_replicate h) hc1
      · split at hspace
        · cases hspace
          exact absurd (List.eq_of_mem_replicate h) hc2
        · exact absurd hspace (by simp)
    · exact absurd h hc3
    · exact h

theorem no_x_of_str_ind {arg : String} {ind : Nat} {it : String} {s : String}
    (harg : 'x' ∉ arg.data) (h : str_ind arg ind it = .ok s) : 'x' ∉ s.data :=
  fun hm => harg (str_ind_mem (by decide) (by decide) (by decide) h hm)

theorem mem_joinNlStrings {c : Char} {parts : List String}
    (h : c ∈ (joinNlStrings parts).data) : c = '\n' ∨ ∃ p ∈ parts, c ∈ p.data := by
  unfold joinNlStrings at h
  rcases mem_joinNL h with h | ⟨l, hl, hc⟩
  · exact Or.inl h
  · rcases List.mem_map.mp hl with ⟨p, hp, rfl⟩
    exact Or.inr ⟨p, hp, hc⟩

theorem mem_intercalate_go {c : Char} (sep : String) :
    ∀ (as : List String) (acc : String),
      c ∈ (String.intercalate.go acc sep as).data →
      c ∈ acc.data ∨ c ∈ sep.data ∨ ∃ p ∈ as, c ∈ p.data := by
  intro as
  induction as with
  | nil =>
    intro acc h
    simp only [String.intercalate.go] at h
    exact Or.inl h
  | cons a as' ih =>
    intro acc h
    simp only [String.intercalate.go] at h
    rcases ih (acc ++ sep ++ a) h with h2 | h2 | h2
    · rw [sdata_append, sdata_append] at h2
      rcases List.mem_append.mp h2 with h3 | h3
      · rcases List.mem_append.mp h3 with h4 | h4
        · exact Or.inl h4
        · exact Or.inr (Or.inl h4)
      · exact Or.inr (Or.inr ⟨a, List.mem_cons_self _ _, h3⟩)
    · exact Or.inr (Or.inl h2)
    · rcases h2 with ⟨p, hp, hcp⟩
      exact Or.inr (Or.inr ⟨p, List.mem_cons_of_mem _ hp, hcp⟩)

theorem mem_intercalate {c : Char} (sep : String) (parts : List String)
    (h : c ∈ (String.intercalate sep parts).data) :
    c ∈ sep.data ∨ ∃ p ∈ parts, c ∈ p.data := by
  cases parts with
  | nil =>
    simp only [String.intercalate] at h
    exact absurd h (List.not_mem_nil c)
  | cons a as =>
    simp only [String.intercalate] at h
    rcases mem_intercalate_go sep as a h with h2 | h2 | h2
    · exact Or.inr ⟨a, List.mem_cons_self _ _, h2⟩
    · exact Or.inl h2
    · rcases h2 with ⟨p, hp, hcp⟩
      exact Or.inr ⟨p, List.mem_cons_of_mem _ hp, hcp⟩

theorem digitChar_mem : ∀ m, m < 10 → Nat.digitChar m ∈ "0123456789".data := by
  decide

theorem toDigitsCore_mem {c : Char} :
    ∀ (fuel n : Nat) (ds : List Char), c ∈ Nat.toDigitsCore 10 fuel n ds →
      c ∈ ds ∨ c ∈ "0123456789".data := by
  intro fuel
  induction fuel with
  | zero =>
    intro n ds h
    simp only [Nat.toDigitsCore] at h
    exact Or.inl h
  | succ f ih =>
    intro n ds h
    simp only [Nat.toDigitsCore] at h
    have hd : Nat.digitChar (n % 10) ∈ "0123456789".data :=
      digitChar_mem _ (Nat.mod_lt _ (by norm_num))
    split at h
    · rcases List.mem_cons.mp h with rfl | h2
      · exact Or.inr hd
      · exact Or.inl h2
    · rcases ih _ _ h with h2 | h2
      · rcases List.mem_cons.mp h2 with rfl | h3
        · exact Or.inr hd
        · exact Or.inl h3
      · exact Or.inr h2

theorem nat_repr_mem {c : Char} (n : Nat) (h : c ∈ (Nat.repr n).data) :
    c ∈ "0123456789".data := by
  have h2 : (Nat.repr n).data = Nat.toDigits 10 n := rfl
  rw [h2] at h
  unfold Nat.toDigits at h
  rcases toDigitsCore_mem _ _ _ h with h3 | h3
  · exact absurd h3 (List.not_mem_nil c)
  · exact h3

theorem int_toString_no_x (n : Int) : 'x' ∉ (toString n).data := by
  intro h
  cases n with
  | ofNat m =>
    have h2 : (toString (Int.ofNat m)).data = (Nat.repr m).data := rfl
    rw [h2] at h
    exact absurd (nat_repr_mem m h) (by decide)
  | negSucc m =>
    have h2 : (toString (Int.negSucc m)).data = "-".data ++ (Nat.repr (m + 1)).data := rfl
    rw [h2] at h
    rcases List.mem_append.mp h with h2 | h2
    · exact absurd h2 (by decide)
    · exact absurd (nat_repr_mem _ h2) (by decide)

set_option maxRecDepth 4000 in
theorem byteHex_no_x : ∀ b : Fin 256, 'x' ∉ (byteHex b).data := by decide

/-- The bytes-branch argument contains no `'x'`: the label, the lowercase
hex pairs, the separating spaces and the ellipsis are all `'x'`-free. -/
theorem bytesArg_no_x (bs : List (Fin 256)) :
    'x' ∉ ("bytes: " ++ (if 4 < bs.length then
      String.intercalate " " ((bs.take (min 4 bs.length)).map byteHex) ++ " ..."
      else String.intercalate " " ((bs.take (min 4 bs.length)).map byteHex))).data := by
  have hbase : 'x' ∉ (String.intercalate " " ((bs.take (min 4 bs.length)).map byteHex)).data := by
    intro h
    rcases mem_intercalate _ _ h with h2 | ⟨p, hp, hcp⟩
    · exact absurd h2 (by decide)
    · rcases List.mem_map.mp hp with ⟨b, _, rfl⟩
      exact byteHex_no_x b hcp
  intro h
  rw [sdata_append] at h
  rcases List.mem_append.mp h with h2 | h2
  · exact absurd h2 (by decide)
  · split at h2
    · rw [sdata_append] at h2
      rcases List.mem_append.mp h2 with h3 | h3
      · exact hbase h3
      · exact absurd h3 (by decide)
    · exact hbase h2

/-- A value admissible in a pure Sequence/Mapping nesting for the
no-truncation-marker theorem: no `Object` anywhere (those are the only
values subject to the cutoff), and any free-form text carried by the value
— string contents, float/unknown/class-name text, mapping keys — avoids
the letter `'x'`, so that the output can contain `'x'` only if the
renderer itself emits it. -/
def markerSafeNode : Node → Prop
  | .pyobj _ _ => False
  | .pystr s => 'x' ∉ s.data
  | .pyfloat r => 'x' ∉ r.data
  | .pytype name => 'x' ∉ name.data
  | .pyunknown t => 'x' ∉ t.data
  | .pydict pairs => ∀ kv ∈ pairs, 'x' ∉ (Prod.fst kv).data
  | _ => True

/-- Every value of the heap is admissible. -/
def markerSafeHeap (heap : Heap) : Prop := ∀ p ∈ heap, markerSafeNode p.2

theorem typeName_no_x {node : Node} (h : markerSafeNode node) :
    'x' ∉ (typeName node).data := by
  cases node with
  | pynone => simp only [typeName]; decide
  | pybytes bs => simp only [typeName]; decide
  | pystr s => simp only [typeName]; decide
  | pyint n => simp only [typeName]; decide
  | pyfloat r => simp only [typeName]; decide
  | pylist l => simp only [typeName]; decide
  | pytuple l => simp only [typeName]; decide
  | pydict p => simp only [typeName]; decide
  | pytype name => simp only [typeName]; decide
  | pyobj cls attrs =>
    simp only [markerSafeNode] at h
  | pyunknown t =>
    simp only [markerSafeNode] at h
    simp only [typeName]
    exact h

theorem renderEntries_no_x {α : Type} (mark : α → Except RenderError String)
    (child : α → Finset Nat → Except RenderError (String × Finset Nat)) :
    ∀ (l : List α) (v : Finset Nat) (out : List String × Finset Nat),
      (∀ x ∈ l, ∀ m, mark x = .ok m → 'x' ∉ m.data) →
      (∀ x ∈ l, ∀ w s v1, child x w = .ok (s, v1) → 'x' ∉ s.data) →
      renderEntries mark child l v = .ok out → ∀ t ∈ out.1, 'x' ∉ t.data := by
  intro l
  induction l with
  | nil =>
    intro v out _ _ h t ht
    cases h
    simp at ht
  | cons x rest ih =>
    intro v out hmark hchild h
    rw [renderEntries] at h
    split at h
    · exact absurd h (by simp)
    · split at h
      · exact absurd h (by simp)
      · split at h
        · exact absurd h (by simp)
        · rename_i m hm sv s v1 hc ssv ss2 v22 hr
          cases h
          intro t ht
          rcases List.mem_cons.mp ht with rfl | ht2
          · exact hmark x (List.mem_cons_self _ _) t hm
          · rcases List.mem_cons.mp ht2 with rfl | ht3
            · exact hchild x (List.mem_cons_self _ _) v t v1 hc
            · exact ih v1 (ss2, v22)
                (fun y hy => hmark y (List.mem_cons_of_mem _ hy))
                (fun y hy => hchild y (List.mem_cons_of_mem _ hy)) hr t ht3

theorem strRecNode_no_x
    (child : Nat → Nat → Finset Nat → Except RenderError (String × Finset Nat))
    (hchild : ∀ a j w s v1, child a j w = .ok (s, v1) → 'x' ∉ s.data)
    (addr indent : Nat) (it : String) (vis : Finset Nat) (node : Node)
    (hnode : markerSafeNode node) (s : String) (v : Finset Nat)
    (h : strRecNode child addr indent it vis node = .ok (s, v)) : 'x' ∉ s.data := by
  cases node with
  | pynone =>
    simp only [strRecNode] at h
    obtain ⟨r, hr, hb⟩ := except_map_ok h
    rw [show s = r from congrArg Prod.fst hb]
    exact no_x_of_str_ind (by decide) hr
  | pybytes bs =>
    simp only [strRecNode] at h
    obtain ⟨r, hr, hb⟩ := except_map_ok h
    rw [show s = r from congrArg Prod.fst hb]
    exact no_x_of_str_ind (bytesArg_no_x bs) hr
  | pystr s0 =>
    simp only [strRecNode] at h
    split at h
    · obtain ⟨r, hr, hb⟩ := except_map_ok h
      rw [show s = r from congrArg Prod.fst hb]
      exact no_x_of_str_ind (by decide) hr
    · obtain ⟨r, hr, hb⟩ := except_map_ok h
      rw [show s = r from congrArg Prod.fst hb]
      simp only [markerSafeNode] at hnode
      refine no_x_of_str_ind ?_ hr
      intro hm
      rw [sdata_append] at hm
      rcases List.mem_append.mp hm with h2 | h2
      · exact absurd h2 (by decide)
      · exact hnode h2
  | pyint n =>
    simp only [strRecNode] at h
    obtain ⟨r, hr, hb⟩ := except_map_ok h
    rw [show s = r from congrArg Prod.fst hb]
    refine no_x_of_str_ind ?_ hr
    intro hm
    rw [sdata_append] at hm
    rcases List.mem_append.mp hm with h2 | h2
    · exact absurd h2 (by decide)
    · exact int_toString_no_x n h2
  | pyfloat r0 =>
    simp only [strRecNode] at h
    obtain ⟨r, hr, hb⟩ := except_map_ok h
    rw [show s = r from congrArg Prod.fst hb]
    simp only [markerSafeNode] at hnode
    refine no_x_of_str_ind ?_ hr
    intro hm
    rw [sdata_append] at hm
    rcases List.mem_append.mp hm with h2 | h2
    · exact absurd h2 (by decide)
    · exact hnode h2
  | pylist elems =>
    simp only [strRecNode] at h
    split at h
    · obtain ⟨r, hr, hb⟩ := except_map_ok h
      rw [show s = r from congrArg Prod.fst hb]
      exact no_x_of_str_ind (by decide) hr
    · split at h
      · exact absurd h (by simp)
      · split at h
        · exact absurd h (by simp)
        · split at h
          · exact absurd h (by simp)
          · split at h
            · exact absurd h (by simp)
            · rename_i x1 t ht x2 ob hob x3 ss2 v22 hre x4 cb hcb
              cases h
              intro hm
              rcases mem_joinNlStrings hm with h2 | ⟨p, hp, hcp⟩
              · exact absurd h2 (by decide)
              · rcases List.mem_cons.mp hp with rfl | hp2
                · exact no_x_of_str_ind (by decide) ht hcp
                · rcases List.mem_cons.mp hp2 with rfl | hp3
                  · exact no_x_of_str_ind (by decide) hob hcp
                  · rcases List.mem_append.mp hp3 with hp4 | hp4
                    · exact renderEntries_no_x _ _ elems (insert addr vis) (ss2, v22)
                        (fun y _ m hm2 => no_x_of_str_ind (by decide) hm2)
                        (fun y _ w s1 v1 hc => hchild y (indent + 1) w s1 v1 hc)
                        hre p hp4 hcp
                    · rw [List.mem_singleton] at hp4
                      subst hp4
                      exact no_x_of_str_ind (by decide) hcb hcp
  | pytuple elems =>
    simp only [strRecNode] at h
    split at h
    · obtain ⟨r, hr, hb⟩ := except_map_ok h
      rw [show s = r from congrArg Prod.fst hb]
      exact no_x_of_str_ind (by decide) hr
    · split at h
      · exact absurd h (by simp)
      · split at h
        · exact absurd h (by simp)
        · split at h
          · exact absurd h (by simp)
          · split at h
            · exact absurd h (by simp)
            · rename_i x1 t ht x2 ob hob x3 ss2 v22 hre x4 cb hcb
              cases h
              intro hm
              rcases mem_joinNlStrings hm with h2 | ⟨p, hp, hcp⟩
              · exact absurd h2 (by decide)
              · rcases List.mem_cons.mp hp with rfl | hp2
                · exact no_x_of_str_ind (by decide) ht hcp
                · rcases List.mem_cons.mp hp2 with rfl | hp3
                  · exact no_x_of_str_ind (by decide) hob hcp
                  · rcases List.mem_append.mp hp3 with hp4 | hp4
                    · exact renderEntries_no_x _ _ elems (insert addr vis) (ss2, v22)
                        (fun y _ m hm2 => no_x_of_str_ind (by decide) hm2)
                        (fun y _ w s1 v1 hc => hchild y (indent + 1) w s1 v1 hc)
                        hre p hp4 hcp
                    · rw [List.mem_singleton] at hp4
                      subst hp4
                      exact no_x_of_str_ind (by decide) hcb hcp
  | pydict pairs =>
    simp only [markerSafeNode] at hnode
    simp only [strRecNode] at h
    split at h
    · obtain ⟨r, hr, hb⟩ := except_map_ok h
      rw [show s = r from congrArg Prod.fst hb]
      exact no_x_of_str_ind (by decide) hr
    · split at h
      · exact absurd h (by simp)
      · split at h
        · exact absurd h (by simp)
        · split at h
          · exact absurd h (by simp)
          · split at h
            · exact absurd h (by simp)
            · rename_i x1 t ht x2 ob hob x3 ss2 v22 hre x4 cb hcb
              cases h
              intro hm
              rcases mem_joinNlStrings hm with h2 | ⟨p, hp, hcp⟩
              · exact absurd h2 (by decide)
              · rcases List.mem_cons.mp hp with rfl | hp2
                · exact no_x_of_str_ind (by decide) ht hcp
                · rcases List.mem_cons.mp hp2 with rfl | hp3
                  · exact no_x_of_str_ind (by decide) hob hcp
                  · rcases List.mem_append.mp hp3 with hp4 | hp4
                    · refine renderEntries_no_x _ _ pairs (insert addr vis) (ss2, v22)
                        ?_ (fun y _ w s1 v1 hc => hchild y.2 (indent + 1) w s1 v1 hc)
                        hre p hp4 hcp
                      intro y hy m hm2
                      refine no_x_of_str_ind ?_ hm2
                      intro hmm
                      rw [sdata_append, sdata_append] at hmm
                      rcases List.mem_append.mp hmm with h3 | h3
                      · rcases List.mem_append.mp h3 with h4 | h4
                        · exact absurd h4 (by decide)
                        · exact hnode y hy h4
                      · exact absurd h3 (by decide)
                    · rw [List.mem_singleton] at hp4
                      subst hp4
                      exact no_x_of_str_ind (by decide) hcb hcp
  | pytype name =>
    simp only [strRecNode] at h
    obtain ⟨r, hr, hb⟩ := except_map_ok h
    rw [show s = r from congrArg Prod.fst hb]
    simp only [markerSafeNode] at hnode
    refine no_x_of_str_ind ?_ hr
    intro hm
    rw [sdata_append, sdata_append] at hm
    rcases List.mem_append.mp hm with h2 | h2
    · rcases List.mem_append.mp h2 with h3 | h3
      · exact absurd h3 (by decide)
      · exact hnode h3
    · exact absurd h2 (by decide)
  | pyobj cls attrs =>
    simp only [markerSafeNode] at hnode
  | pyunknown t =>
    simp only [strRecNode] at h
    obtain ⟨r, hr, hb⟩ := except_map_ok h
    rw [show s = r from congrArg Prod.fst hb]
    simp only [markerSafeNode] at hnode
    refine no_x_of_str_ind ?_ hr
    intro hm
    rw [sdata_append] at hm
    rcases List.mem_append.mp hm with h2 | h2
    · exact absurd h2 (by decide)
    · exact hnode h2

theorem strRecStep_no_x
    (child : Nat → Nat → Finset Nat → Except RenderError (String × Finset Nat))
    (hchild : ∀ a j w s v1, child a j w = .ok (s, v1) → 'x' ∉ s.data)
    (heap : Heap) (hheap : markerSafeHeap heap) (addr indent : Nat) (it : String)
    (vis : Finset Nat) (s : String) (v : Finset Nat)
    (h : strRecStep child heap addr indent it vis = .ok (s, v)) : 'x' ∉ s.data := by
  unfold strRecStep at h
  split at h
  · exact absurd h (by simp)
  · rename_i node hfind
    have hnode : markerSafeNode node := hheap _ (heapFind_mem hfind)
    split at h
    · obtain ⟨r, hr, hb⟩ := except_map_ok h
      rw [show s = r from congrArg Prod.fst hb]
      refine no_x_of_str_ind ?_ hr
      intro hm
      rw [sdata_append, sdata_append] at hm
      rcases List.mem_append.mp hm with h2 | h2
      · rcases List.mem_append.mp h2 with h3 | h3
        · exact absurd h3 (by decide)
        · exact typeName_no_x hnode h3
      · exact absurd h2 (by decide)
    · exact strRecNode_no_x child hchild addr indent it vis node hnode s v h

/-- On a heap of Sequence/Mapping/scalar values whose free-form text avoids
the letter `'x'`, no successful rendering contains `'x'` at all — in
particular the truncation marker, which contains `'x'`, is never emitted,
at any depth, for any nesting of sequences and mappings. -/
theorem str_recursively_no_x :
    ∀ (fuel : Nat) (heap : Heap), markerSafeHeap heap →
      ∀ (addr ind : Nat) (it : String) (vis : Finset Nat) (s : String) (v : Finset Nat),
        str_recursively fuel heap addr ind it vis = .ok (s, v) → 'x' ∉ s.data := by
  intro fuel
  induction fuel with
  | zero =>
    intro heap _ addr ind it vis s v h
    simp [str_recursively] at h
  | succ n ih =>
    intro heap hheap addr ind it vis s v h
    rw [str_recursively] at h
    exact strRecStep_no_x _ (fun a j w s1 v1 hw => ih heap hheap a j it w s1 v1 hw)
      heap hheap addr ind it vis s v h

/-- C10: the max-recursion-depth cutoff applies only to `Object` values.
For every heap, every list, tuple or mapping value — of any number of
elements — and every depth `ind`, however far beyond the limit of 10, the
renderer recurses into every element and every mapping value at depth+1
and emits exactly header, opening bracket, per-entry marker plus recursive
rendering, closing bracket — no depth test, no truncation marker (first
three conjuncts).  Moreover, on any heap of Sequence/Mapping/scalar values
whose free-form text avoids the letter `'x'`, the output never contains
`'x'`; since the truncation marker contains `'x'`, the marker never occurs
as a substring of such output (next three conjuncts).  The alternating
list/dict chain of every depth `n` is such a heap and renders fully
expanded down to the innermost integer (last two conjuncts). -/
theorem C10_theorem :
    (∀ (fuel : Nat) (heap : Heap) (addr ind : Nat) (it : String)
       (vis : Finset Nat) (elems : List Nat),
       (it = "tabs" ∨ it = "spaces") → heapFind heap addr = some (.pylist elems) →
       addr ∉ vis → elems ≠ [] →
       str_recursively (fuel + 1) heap addr ind it vis =
         (renderEntries (fun _ => str_ind "[>] item:" ind it)
            (fun a v => str_recursively fuel heap a (ind + 1) it v) elems
            (insert addr vis)).map
           (fun p => (joinNlStrings
              (String.mk (indentLines (indentUnit it ind) "list:".data) ::
               String.mk (indentLines (indentUnit it ind) "[".data) ::
               (p.1 ++ [String.mk (indentLines (indentUnit it ind) "]".data)])),
             p.2.erase addr))) ∧
    (∀ (fuel : Nat) (heap : Heap) (addr ind : Nat) (it : String)
       (vis : Finset Nat) (elems : List Nat),
       (it = "tabs" ∨ it = "spaces") → heapFind heap addr = some (.pytuple elems) →
       addr ∉ vis → elems ≠ [] →
       str_recursively (fuel + 1) heap addr ind it vis =
         (renderEntries (fun _ => str_ind "[>] item:" ind it)
            (fun a v => str_recursively fuel heap a (ind + 1) it v) elems
            (insert addr vis)).map
           (fun p => (joinNlStrings
              (String.mk (indentLines (indentUnit it ind) "tuple:".data) ::
               String.mk (indentLines (indentUnit it ind) "(".data) ::
               (p.1 ++ [String.mk (indentLines (indentUnit it ind) ")".data)])),
             p.2.erase addr))) ∧
    (∀ (fuel : Nat) (heap : Heap) (addr ind : Nat) (it : String)
       (vis : Finset Nat) (pairs : List (String × Nat)),
       (it = "tabs" ∨ it = "spaces") → heapFind heap addr = some (.pydict pairs) →
       addr ∉ vis → pairs ≠ [] →
       str_recursively (fuel + 1) heap addr ind it vis =
         (renderEntries (fun kv => str_ind ("[>] " ++ kv.1 ++ ":") ind it)
            (fun kv v => str_recursively fuel heap kv.2 (ind + 1) it v) pairs
            (insert addr vis)).map
           (fun p => (joinNlStrings
              (String.mk (indentLines (indentUnit it ind) "dict:".data) ::
               String.mk (indentLines (indentUnit it ind) "\x7b".data) ::
               (p.1 ++ [String.mk (indentLines (indentUnit it ind) "\x7d".data)])),
             p.2.erase addr))) ∧
    (∀ (heap : Heap), markerSafeHeap heap →
       ∀ (fuel addr ind : Nat) (it : String) (vis : Finset Nat) (s : String)
         (v : Finset Nat),
         str_recursively fuel heap addr ind it vis = .ok (s, v) → 'x' ∉ s.data) ∧
    ('x' ∈ "<max depth reached>".data) ∧
    (∀ s : String, 'x' ∉ s.data →
       ¬ ∃ a b : List Char, s.data = a ++ "<max depth reached>".data ++ b) ∧
    (∀ n : Nat, markerSafeHeap (c10Heap n)) ∧
    (∀ n : Nat, str_recursively (n + 1) (c10Heap n) 0 0 "tabs" ∅ =
       .ok (c10Expect 0 n, ∅)) := by
  refine ⟨?_, ?_, ?_, ?_, by decide, ?_, ?_, ?_⟩
  · intro fuel heap addr ind it vis elems hit hfind hmem hne
    rw [str_recursively]
    unfold strRecStep
    simp only [hfind]
    rw [if_neg hmem]
    cases elems with
    | nil => exact absurd rfl hne
    | cons x rest =>
      simp only [strRecNode]
      rw [if_neg (by simp), str_ind_valid hit "list:", str_ind_valid hit "[",
        str_ind_valid hit "]"]
      cases hre : renderEntries (fun _ => str_ind "[>] item:" ind it)
          (fun a v => str_recursively fuel heap a (ind + 1) it v) (x :: rest)
          (insert addr vis) with
      | error e => rfl
      | ok p =>
        obtain ⟨ss, v⟩ := p
        rfl
  · intro fuel heap addr ind it vis elems hit hfind hmem hne
    rw [str_recursively]
    unfold strRecStep
    simp only [hfind]
    rw [if_neg hmem]
    cases elems with
    | nil => exact absurd rfl hne
    | cons x rest =>
      simp only [strRecNode]
      rw [if_neg (by simp), str_ind_valid hit "tuple:", str_ind_valid hit "(",
        str_ind_valid hit ")"]
      cases hre : renderEntries (fun _ => str_ind "[>] item:" ind it)
          (fun a v => str_recursively fuel heap a (ind + 1) it v) (x :: rest)
          (insert addr vis) with
      | error e => rfl
      | ok p =>
        obtain ⟨ss, v⟩ := p
        rfl
  · intro fuel heap addr ind it vis pairs hit hfind hmem hne
    rw [str_recursively]
    unfold strRecStep
    simp only [hfind]
    rw [if_neg hmem]
    cases pairs with
    | nil => exact absurd rfl hne
    | cons x rest =>
      simp only [strRecNode]
      rw [if_neg (by simp), str_ind_valid hit "dict:", str_ind_valid hit "\x7b",
        str_ind_valid hit "\x7d"]
      cases hre : renderEntries (fun kv => str_ind ("[>] " ++ kv.1 ++ ":") ind it)
          (fun kv v => str_recursively fuel heap kv.2 (ind + 1) it v) (x :: rest)
          (insert addr vis) with
      | error e => rfl
      | ok p =>
        obtain ⟨ss, v⟩ := p
        rfl
  · intro heap hheap fuel addr ind it vis s v h
    exact str_recursively_no_x fuel heap hheap addr ind it vis s v h
  · rintro s hs ⟨a, b, hab⟩
    apply hs
    rw [hab]
    exact List.mem_append.mpr (Or.inl (List.mem_append.mpr (Or.inr (by decide))))
  · intro n p hp
    rcases List.mem_map.mp hp with ⟨i, _, rfl⟩
    show markerSafeNode (c10Node n i)
    unfold c10Node
    by_cases h1 : i = n
    · rw [if_pos h1]
      simp only [markerSafeNode]
    · rw [if_neg h1]
      by_cases h2 : i % 2 = 0
      · rw [if_pos h2]
        simp only [markerSafeNode]
      · rw [if_neg h2]
        simp only [markerSafeNode]
        intro kv hkv
        rw [List.mem_singleton] at hkv
        subst hkv
        show 'x' ∉ "k".data
        decide
  · intro n
    exact c10_render n n 0 (by omega) ∅ (by simp)

/-- Witness for C10: concrete instances of every hypothesis-bearing
conjunct — a three-element list, a two-element tuple and a two-element
dict all expand fully at depth 12 (beyond the limit of 10); a concrete
marker-safe heap renders without the letter `'x'` and hence without the
truncation marker as a substring. -/
theorem C10_theorem_witness :
    (heapFind [(0, Node.pylist [1, 2, 3]), (1, Node.pyint 3), (2, Node.pyint 4),
        (3, Node.pyint 5)] 0 = some (Node.pylist [1, 2, 3]) ∧
     (0 ∉ (∅ : Finset Nat)) ∧ ([1, 2, 3] : List Nat) ≠ [] ∧
     str_recursively 2 [(0, Node.pylist [1, 2, 3]), (1, Node.pyint 3),
         (2, Node.pyint 4), (3, Node.pyint 5)] 0 12 "tabs" ∅ =
       (renderEntries (fun _ => str_ind "[>] item:" 12 "tabs")
          (fun a v => str_recursively 1 [(0, Node.pylist [1, 2, 3]),
             (1, Node.pyint 3), (2, Node.pyint 4), (3, Node.pyint 5)]
             a 13 "tabs" v) [1, 2, 3] (insert 0 ∅)).map
         (fun p => (joinNlStrings
            (String.mk (indentLines (indentUnit "tabs" 12) "list:".data) ::
             String.mk (indentLines (indentUnit "tabs" 12) "[".data) ::
             (p.1 ++ [String.mk (indentLines (indentUnit "tabs" 12) "]".data)])),
           p.2.erase 0))) ∧
    (heapFind [(0, Node.pytuple [1, 2]), (1, Node.pyint 3), (2, Node.pyint 4)] 0 =
        some (Node.pytuple [1, 2]) ∧
     (0 ∉ (∅ : Finset Nat)) ∧ ([1, 2] : List Nat) ≠ [] ∧
     str_recursively 2 [(0, Node.pytuple [1, 2]), (1, Node.pyint 3),
         (2, Node.pyint 4)] 0 12 "tabs" ∅ =
       (renderEntries (fun _ => str_ind "[>] item:" 12 "tabs")
          (fun a v => str_recursively 1 [(0, Node.pytuple [1, 2]),
             (1, Node.pyint 3), (2, Node.pyint 4)] a 13 "tabs" v)
          [1, 2] (insert 0 ∅)).map
         (fun p => (joinNlStrings
            (String.mk (indentLines (indentUnit "tabs" 12) "tuple:".data) ::
             String.mk (indentLines (indentUnit "tabs" 12) "(".data) ::
             (p.1 ++ [String.mk (indentLines (indentUnit "tabs" 12) ")".data)])),
           p.2.erase 0))) ∧
    (heapFind [(0, Node.pydict [("a", 1), ("b", 2)]), (1, Node.pyint 3),
        (2, Node.pyint 4)] 0 = some (Node.pydict [("a", 1), ("b", 2)]) ∧
     (0 ∉ (∅ : Finset Nat)) ∧ ([("a", 1), ("b", 2)] : List (String × Nat)) ≠ [] ∧
     str_recursively 2 [(0, Node.pydict [("a", 1), ("b", 2)]), (1, Node.pyint 3),
         (2, Node.pyint 4)] 0 12 "tabs" ∅ =
       (renderEntries (fun kv => str_ind ("[>] " ++ kv.1 ++ ":") 12 "tabs")
          (fun kv v => str_recursively 1 [(0, Node.pydict [("a", 1), ("b", 2)]),
             (1, Node.pyint 3), (2, Node.pyint 4)] kv.2 13 "tabs" v)
          [("a", 1), ("b", 2)] (insert 0 ∅)).map
         (fun p => (joinNlStrings
            (String.mk (indentLines (indentUnit "tabs" 12) "dict:".data) ::
             String.mk (indentLines (indentUnit "tabs" 12) "\x7b".data) ::
             (p.1 ++ [String.mk (indentLines (indentUnit "tabs" 12) "\x7d".data)])),
           p.2.erase 0))) ∧
    (str_recursively 1 [(0, Node.pystr "hello")] 0 0 "tabs" ∅ =
        .ok ("str: hello", ∅) ∧ 'x' ∉ "str: hello".data) ∧
    (¬ ∃ a b : List Char,
        "str: hello".data = a ++ "<max depth reached>".data ++ b) := by
  refine ⟨⟨rfl, by decide, by decide, ?_⟩, ⟨rfl, by decide, by decide, ?_⟩,
    ⟨rfl, by decide, by decide, ?_⟩, ⟨rfl, ?_⟩, ?_⟩
  · exact C10_theorem.1 1 [(0, Node.pylist [1, 2, 3]), (1, Node.pyint 3),
      (2, Node.pyint 4), (3, Node.pyint 5)] 0 12 "tabs" ∅ [1, 2, 3]
      (Or.inl rfl) rfl (by decide) (by decide)
  · exact C10_theorem.2.1 1 [(0, Node.pytuple [1, 2]), (1, Node.pyint 3),
      (2, Node.pyint 4)] 0 12 "tabs" ∅ [1, 2]
      (Or.inl rfl) rfl (by decide) (by decide)
  · exact C10_theorem.2.2.1 1 [(0, Node.pydict [("a", 1), ("b", 2)]),
      (1, Node.pyint 3), (2, Node.pyint 4)] 0 12 "tabs" ∅ [("a", 1), ("b", 2)]
      (Or.inl rfl) rfl (by decide) (by decide)
  · exact C10_theorem.2.2.2.1 [(0, Node.pystr "hello")]
      (by
        intro p hp
        rw [List.mem_singleton] at hp
        subst hp
        show markerSafeNode (Node.pystr "hello")
        simp only [markerSafeNode]
        decide)
      1 0 0 "tabs" ∅ "str: hello" ∅ rfl
  · exact C10_theorem.2.2.2.2.2.1 "str: hello" (by decide)
